import Mathlib

/-
Verification of the device state reconciliation core of open-balena-api.

The main subject is the handler statePatchV3 from
src/features/device-state/routes/state-patch-v3.ts.  The handler is embedded
as a pure function from a request body and the caller-visible rows of the
relational store to a new store plus an HTTP-level response.  The pinejs api
with its permission filtering is modelled by the store holding exactly the
rows the caller is allowed to see.  Asynchronous store calls inside one
request are modelled by evaluating all reads against the state at the start
of the relevant transaction phase; distinct body entries resolve to distinct
devices, so their write sets are disjoint and a sequential application of
the collected write instructions is a faithful rendering of the jointly
awaited writes.

JavaScript details that matter and are kept:
  - Object.keys filtering of null entries, so an empty usable-entry set is a
    bad request;
  - image locations are collected by pushing, with multiplicity, not as a
    deduplicated set;
  - release commits are collected per application uuid in an insertion
    ordered set;
  - property access on a possibly-absent object member can raise a TypeError,
    which the surrounding try/catch turns into a generic 500 response;
  - lodash pick restricted to validPatchFields, lodash isEmpty, lodash keyBy
    where the last row for a duplicated key wins.

The helpers upsertImageInstall and deleteOldImageInstalls are imported by the
handler from state-patch-v2, whose source file is not part of this tree; they
are modelled from the specification text and marked as such in their doc
comments.
-/

set_option maxHeartbeats 1000000

namespace BalenaApi

/-- JSON-like scalar values carried by the v3 state patch body and stored in
mutable device columns. -/
inductive Value where
  | str (s : String)
  | num (n : Int)
  | bool (b : Bool)
  | null
  deriving DecidableEq, Repr

/-- One claimed service: image location, status, optional download progress. -/
structure ServiceEntry where
  image : String
  status : String
  download_progress : Option Int := none
  deriving DecidableEq, Repr

/-- One claimed release: services keyed by service name. -/
structure ReleaseEntry where
  services : Option (List (String × ServiceEntry)) := none
  deriving DecidableEq, Repr

/-- One claimed app: optional running release commit plus claimed releases
keyed by release commit. -/
structure AppEntry where
  release_uuid : Option String := none
  releases : Option (List (String × ReleaseEntry)) := none
  deriving DecidableEq, Repr

/-- One device entry of the request body.  The scalar members are an
association list because the handler treats the body as untrusted input and
picks the allow-listed keys out of whatever object arrived. -/
structure DeviceEntry where
  fields : List (String × Value) := []
  apps : Option (List (String × AppEntry)) := none
  deriving DecidableEq, Repr

/-- The request body: device uuid to nullable device entry. -/
abbrev Body := List (String × Option DeviceEntry)

/-- A device row as selected and expanded by the read phase.  The device
belongs to exactly one application; belongs_to__application holds the uuid of
the first (authoritative) membership. -/
structure DeviceRow where
  id : Nat
  uuid : String
  belongs_to__application : String
  fields : List (String × Value) := []
  deriving DecidableEq, Repr

/-- An image row. -/
structure ImageRow where
  id : Nat
  is_stored_at__image_location : String
  deriving DecidableEq, Repr

/-- A release row. -/
structure ReleaseRow where
  id : Nat
  commit : String
  belongs_to__application : String
  deriving DecidableEq, Repr

/-- An image install row: device has image installed under a release. -/
structure ImageInstallRow where
  id : Nat
  device : Nat
  installs__image : Nat
  is_provided_by__release : Nat
  status : String
  download_progress : Option Int := none
  deriving DecidableEq, Repr

/-- The caller-visible rows of the relational store. -/
structure Store where
  devices : List DeviceRow := []
  images : List ImageRow := []
  releases : List ReleaseRow := []
  installs : List ImageInstallRow := []
  deriving DecidableEq, Repr

/-- The errors the handler can raise: BadRequestError, UnauthorizedError,
InternalRequestError, and a JavaScript TypeError escaping to the catch-all. -/
inductive Err where
  | badRequest
  | unauthorized
  | internal
  | typeError
  deriving DecidableEq, Repr

/-- The externally observable response statuses. -/
inductive Response where
  | ok200
  | badRequest400
  | unauthorized401
  | serverError500
  deriving DecidableEq, Repr

/-- Mapping from a raised error to the HTTP response produced by the final
catch block: handleHttpErrors serves the typed http errors, anything else is
captured and answered with a plain 500. -/
def respOf : Err → Response
  | .badRequest => .badRequest400
  | .unauthorized => .unauthorized401
  | .internal => .serverError500
  | .typeError => .serverError500

/-- JS object property lookup over an association list. -/
def alookup {β : Type} : List (String × β) → String → Option β
  | [], _ => none
  | p :: rest, k => if p.1 = k then some p.2 else alookup rest k

/-- The allow-list of scalar patch fields, exactly as in the source. -/
def validPatchFields : List String :=
  [ "status"
  , "os_version"
  , "os_variant"
  , "supervisor_version"
  , "provisioning_progress"
  , "provisioning_state"
  , "ip_address"
  , "mac_address"
  , "api_port"
  , "api_secret"
  , "logs_channel"
  , "memory_usage"
  , "memory_total"
  , "storage_block_device"
  , "storage_usage"
  , "storage_total"
  , "cpu_temp"
  , "cpu_usage"
  , "cpu_id"
  , "is_undervolted"
  , "is_online" ]

/-- The non-null entries of the body, in key order. -/
def entriesOf (body : Body) : List (String × DeviceEntry) :=
  body.filterMap (fun p => match p.2 with | some e => some (p.1, e) | none => none)

/-- Object.keys(body).filter(uuid => body[uuid] != null). -/
def uuidsOf (body : Body) : List String :=
  (entriesOf body).map Prod.fst

/-- Insertion-ordered set add, the behaviour of JS Set.add. -/
def setAdd (s : List String) (x : String) : List String :=
  if x ∈ s then s else s ++ [x]

/-- Accumulator of the reference collection pass: the per-application release
commit sets plus the image location list (with multiplicity). -/
abbrev RefAcc := List (String × List String) × List String

/-- appReleaseUuids[appUuid] ??= new Set(). -/
def ensureApp (m : List (String × List String)) (a : String) : List (String × List String) :=
  if (alookup m a).isSome then m else m ++ [(a, [])]

/-- appReleaseUuids[appUuid].add(releaseUuid). -/
def addAppRelease (m : List (String × List String)) (a ru : String) : List (String × List String) :=
  m.map (fun p => if p.1 = a then (p.1, setAdd p.2 ru) else p)

/-- Inner loop over a claimed release: record its commit and push the image
location of every claimed service. -/
def collectRelease (a : String) (acc : RefAcc) (p : String × ReleaseEntry) : RefAcc :=
  let m := addAppRelease acc.1 a p.1
  match p.2.services with
  | none => (m, acc.2)
  | some svcs => (m, acc.2 ++ svcs.map (fun s => s.2.image))

/-- First half of the loop over one claimed app: ensure its key and record a
truthy running release commit. -/
def collectAppSets (m : List (String × List String)) (p : String × AppEntry) :
    List (String × List String) :=
  let m0 := ensureApp m p.1
  match p.2.release_uuid with
  | some ru => if ru = "" then m0 else addAppRelease m0 p.1 ru
  | none => m0

/-- Loop over one claimed app: ensure its key, record a truthy running
release commit, then walk the claimed releases. -/
def collectApp (acc : RefAcc) (p : String × AppEntry) : RefAcc :=
  let m1 := collectAppSets acc.1 p
  match p.2.releases with
  | none => (m1, acc.2)
  | some rels => rels.foldl (collectRelease p.1) (m1, acc.2)

/-- Loop over one body entry. -/
def collectEntry (acc : RefAcc) (p : String × DeviceEntry) : RefAcc :=
  match p.2.apps with
  | none => acc
  | some apps => apps.foldl collectApp acc

/-- The whole-batch reference collection of statePatchV3 lines 118-147. -/
def collectRefs (body : Body) : RefAcc :=
  (entriesOf body).foldl collectEntry ([], [])

/-- The cross-reference bundle produced by the read-only phase. -/
structure Resolved where
  devices : List DeviceRow
  images : List ImageRow
  appReleases : List (String × List ReleaseRow)
  deriving DecidableEq, Repr

/-- The device rows matched by the uuid $in filter of the read phase. -/
def devicesFor (store : Store) (uuids : List String) : List DeviceRow :=
  store.devices.filter (fun d => decide (d.uuid ∈ uuids))

/-- The image rows matched by the location $in filter of the read phase. -/
def imagesFor (store : Store) (locs : List String) : List ImageRow :=
  store.images.filter (fun i => decide (i.is_stored_at__image_location ∈ locs))

/-- The release rows matched by the commit $in filter scoped to one
application. -/
def releasesFor (store : Store) (a : String) (rus : List String) : List ReleaseRow :=
  store.releases.filter
    (fun r => decide (r.commit ∈ rus) && decide (r.belongs_to__application = a))

/-- Image resolution and count check, statePatchV3 lines 184-197.  When no
location was collected the query is skipped and the images variable stays
empty. -/
def resolveImages (store : Store) (imageLocations : List String) : Except Err (List ImageRow) :=
  if imageLocations.isEmpty then .ok []
  else
    if imageLocations.length ≠ (imagesFor store imageLocations).length
    then .error .unauthorized
    else .ok (imagesFor store imageLocations)

/-- Per-application release resolution and count check, statePatchV3 lines
199-220. -/
def resolveReleases (store : Store) : List (String × List String) → Except Err (List (String × List ReleaseRow))
  | [] => .ok []
  | (a, rus) :: rest =>
    if (releasesFor store a rus).length ≠ rus.length then .error .unauthorized
    else
      match resolveReleases store rest with
      | .error e => .error e
      | .ok tail => .ok ((a, releasesFor store a rus) :: tail)

/-- The read-only transaction of statePatchV3 lines 149-221: resolve devices,
images and per-application releases, rejecting on any count mismatch. -/
def readPhase (body : Body) (store : Store) : Except Err Resolved :=
  if (devicesFor store (uuidsOf body)).length ≠ (uuidsOf body).length then .error .unauthorized
  else
    match resolveImages store (collectRefs body).2 with
    | .error e => .error e
    | .ok images =>
      match resolveReleases store (collectRefs body).1 with
      | .error e => .error e
      | .ok appReleases => .ok ⟨devicesFor store (uuidsOf body), images, appReleases⟩

/-- An image install candidate derived from a claimed service. -/
structure ImgInstall where
  imageId : Nat
  releaseId : Nat
  status : String
  downloadProgress : Option Int := none
  deriving DecidableEq, Repr

/-- A write instruction for the image_install resource. -/
inductive InstallInstr where
  | insert (device : Nat) (cand : ImgInstall)
  | update (id : Nat) (cand : ImgInstall)
  | noop
  deriving DecidableEq, Repr

/-- Whether the reported status, release or progress differs from the stored
row; an unreported progress is not compared. -/
def installDiffers (row : ImageInstallRow) (cand : ImgInstall) : Bool :=
  decide (row.status ≠ cand.status)
    || decide (row.is_provided_by__release ≠ cand.releaseId)
    || (match cand.downloadProgress with
        | none => false
        | some p => decide (row.download_progress ≠ some p))

/-- Modelled from the spec: upsertImageInstall is imported from state-patch-v2,
whose source file is not part of this tree.  Spec section 4.3: a candidate with
an existing (device, image) row becomes an update instruction only when the new
status, progress or release actually differ, otherwise no write happens; a
candidate without an existing row becomes an insert instruction. -/
def upsertImageInstall (existing : Option ImageInstallRow) (cand : ImgInstall) (deviceId : Nat) : InstallInstr :=
  match existing with
  | none => .insert deviceId cand
  | some row => if installDiffers row cand then .update row.id cand else .noop

/-- Modelled from the spec: deleteOldImageInstalls is imported from
state-patch-v2, whose source file is not part of this tree.  Spec sections 4.3
and 8: remove the existing rows of the device whose image id is not among the
device currently claimed image ids, restricted to the image-id scope looked up
by the authorization resolver; rows of other devices or of images outside the
scope are untouched. -/
def deleteOldImageInstalls (scope : List Nat) (deviceId : Nat) (imageIds : List Nat)
    (installs : List ImageInstallRow) : List ImageInstallRow :=
  installs.filter (fun ii =>
    !(decide (ii.device = deviceId) && decide (ii.installs__image ∈ scope)
        && decide (ii.installs__image ∉ imageIds)))

/-- lodash keyBy on installs__image followed by a key lookup: for a duplicated
key the last row wins. -/
def keyByImageLookup (rows : List ImageInstallRow) (img : Nat) : Option ImageInstallRow :=
  rows.reverse.find? (fun ii => decide (ii.installs__image = img))

/-- The upsert pass of statePatchV3 lines 314-348: fetch the existing installs
of the device restricted to the claimed image ids, key them by image, and turn
every candidate into its upsert instruction. -/
def deviceUpsertInstrs (installs : List ImageInstallRow) (deviceId : Nat)
    (cands : List ImgInstall) : List InstallInstr :=
  let imageIds := cands.map (·.imageId)
  let existing := installs.filter
    (fun ii => decide (ii.device = deviceId) && decide (ii.installs__image ∈ imageIds))
  cands.map (fun c => upsertImageInstall (keyByImageLookup existing c.imageId) c deviceId)

/-- The scalar part of the device patch, statePatchV3 lines 235-238: lodash
pick over validPatchFields plus device_name from a non-null name member. -/
def baseBody (entry : DeviceEntry) : List (String × Value) :=
  let b0 := entry.fields.filter (fun kv => decide (kv.1 ∈ validPatchFields))
  match alookup entry.fields "name" with
  | some v => if v ≠ Value.null then b0 ++ [("device_name", v)] else b0
  | none => b0

/-- The device patch body, statePatchV3 lines 235-252.  When the entry has an
apps object the running release of the owning application is looked up; a
missing appReleases key for the owning application raises a TypeError on the
find call, and with a nonempty release list a missing own-app member of the
apps object raises a TypeError inside the find callback. -/
def buildDeviceBody (entry : DeviceEntry) (device : DeviceRow)
    (appReleases : List (String × List ReleaseRow)) : Except Err (List (String × Value)) :=
  match entry.apps with
  | none => .ok (baseBody entry)
  | some apps =>
    match alookup appReleases device.belongs_to__application with
    | none => .error .typeError
    | some rels =>
      match rels with
      | [] => .ok (baseBody entry)
      | _ :: _ =>
        match alookup apps device.belongs_to__application with
        | none => .error .typeError
        | some appEntry =>
          match rels.find? (fun r => decide (appEntry.release_uuid = some r.commit)) with
          | some release => .ok (baseBody entry ++ [("is_running__release", Value.num release.id)])
          | none => .ok (baseBody entry)

/-- The image install candidates of the claimed services of one release,
statePatchV3 lines 297-310. -/
def buildServiceInstalls (images : List ImageRow) (releaseId : Nat) :
    List (String × ServiceEntry) → Except Err (List ImgInstall)
  | [] => .ok []
  | (_, svc) :: rest =>
    match images.find? (fun i => decide (i.is_stored_at__image_location = svc.image)) with
    | none => .error .internal
    | some img =>
      match buildServiceInstalls images releaseId rest with
      | .error e => .error e
      | .ok tail => .ok (⟨img.id, releaseId, svc.status, svc.download_progress⟩ :: tail)

/-- The image install candidates of the claimed releases of one app,
statePatchV3 lines 288-311. -/
def buildReleaseInstalls (images : List ImageRow)
    (appReleases : List (String × List ReleaseRow)) (a : String) :
    List (String × ReleaseEntry) → Except Err (List ImgInstall)
  | [] => .ok []
  | (ru, re) :: rest =>
    match alookup appReleases a with
    | none => .error .typeError
    | some arels =>
      match arels.find? (fun r => decide (r.commit = ru)) with
      | none => .error .internal
      | some release =>
        match buildServiceInstalls images release.id (re.services.getD []) with
        | .error e => .error e
        | .ok here =>
          match buildReleaseInstalls images appReleases a rest with
          | .error e => .error e
          | .ok tail => .ok (here ++ tail)

/-- The image install candidates of a whole apps object, statePatchV3 lines
267-312. -/
def buildAppInstalls (images : List ImageRow)
    (appReleases : List (String × List ReleaseRow)) :
    List (String × AppEntry) → Except Err (List ImgInstall)
  | [] => .ok []
  | (a, ae) :: rest =>
    match buildReleaseInstalls images appReleases a (ae.releases.getD []) with
    | .error e => .error e
    | .ok here =>
      match buildAppInstalls images appReleases rest with
      | .error e => .error e
      | .ok tail => .ok (here ++ tail)

/-- The write instructions computed for one body entry. -/
structure EntryInstrs where
  devicePatch : Option (Nat × List (String × Value))
  upserts : List InstallInstr
  installDelete : Option (Nat × List Nat)
  deriving DecidableEq, Repr

/-- lodash isEmpty guard of statePatchV3 lines 254-265: an empty patch body
issues no device write at all. -/
def devicePatchOf (deviceId : Nat) (deviceBody : List (String × Value)) :
    Option (Nat × List (String × Value)) :=
  if deviceBody.isEmpty then none else some (deviceId, deviceBody)

/-- Processing of one body entry inside the write transaction, statePatchV3
lines 230-353. -/
def processEntry (resolved : Resolved) (installs : List ImageInstallRow)
    (uuid : String) (entry : DeviceEntry) : Except Err EntryInstrs :=
  match resolved.devices.find? (fun d => decide (d.uuid = uuid)) with
  | none => .error .unauthorized
  | some device =>
    match buildDeviceBody entry device resolved.appReleases with
    | .error e => .error e
    | .ok deviceBody =>
      match entry.apps with
      | none => .ok ⟨devicePatchOf device.id deviceBody, [], none⟩
      | some apps =>
        match buildAppInstalls resolved.images resolved.appReleases apps with
        | .error e => .error e
        | .ok imgInstalls =>
          .ok ⟨devicePatchOf device.id deviceBody,
            if (imgInstalls.map (·.imageId)).isEmpty then []
            else deviceUpsertInstrs installs device.id imgInstalls,
            some (device.id, imgInstalls.map (·.imageId))⟩

/-- Processing of all body entries. -/
def processEntries (resolved : Resolved) (installs : List ImageInstallRow) :
    List (String × DeviceEntry) → Except Err (List EntryInstrs)
  | [] => .ok []
  | (u, e) :: rest =>
    match processEntry resolved installs u e with
    | .error er => .error er
    | .ok i =>
      match processEntries resolved installs rest with
      | .error er => .error er
      | .ok tail => .ok (i :: tail)

/-- Whether a device row already matches every member of a patch body: the
filter $not body condition of the device patch. -/
def matchesBody (d : DeviceRow) (b : List (String × Value)) : Bool :=
  b.all (fun kv => decide (alookup d.fields kv.1 = some kv.2))

/-- Set one column of a device row field list. -/
def setField : List (String × Value) → String → Value → List (String × Value)
  | [], k, v => [(k, v)]
  | p :: rest, k, v => if p.1 = k then (k, v) :: rest else p :: setField rest k v

/-- Apply every member of a patch body to a field list. -/
def applyFields (fields : List (String × Value)) (b : List (String × Value)) :
    List (String × Value) :=
  b.foldl (fun fs kv => setField fs kv.1 kv.2) fields

/-- Store semantics of the device patch with its $not body filter: only rows
of the addressed id that do not already match the body are written. -/
def applyDevicePatch (devices : List DeviceRow) (deviceId : Nat)
    (b : List (String × Value)) : List DeviceRow :=
  devices.map (fun d =>
    if decide (d.id = deviceId) && !(matchesBody d b) then
      { d with fields := applyFields d.fields b }
    else d)

/-- The ids of the rows a device patch would actually write. -/
def devicePatchAffected (devices : List DeviceRow) (deviceId : Nat)
    (b : List (String × Value)) : List Nat :=
  (devices.filter (fun d => decide (d.id = deviceId) && !(matchesBody d b))).map (·.id)

/-- A store-assigned id for an inserted install row. -/
def freshInstallId (installs : List ImageInstallRow) : Nat :=
  installs.foldl (fun m ii => max m ii.id) 0 + 1

/-- Store semantics of one install instruction. -/
def applyInstallInstr (installs : List ImageInstallRow) : InstallInstr → List ImageInstallRow
  | .noop => installs
  | .insert did c =>
    installs ++ [⟨freshInstallId installs, did, c.imageId, c.releaseId, c.status, c.downloadProgress⟩]
  | .update iid c =>
    installs.map (fun ii =>
      if ii.id = iid then
        { ii with
          status := c.status
          is_provided_by__release := c.releaseId
          download_progress := match c.downloadProgress with
            | some p => some p
            | none => ii.download_progress }
      else ii)

/-- Store semantics of the write instructions of one entry. -/
def applyEntryInstrs (scope : List Nat) (st : Store) (ei : EntryInstrs) : Store :=
  let devices := match ei.devicePatch with
    | none => st.devices
    | some (did, b) => applyDevicePatch st.devices did b
  let installs1 := ei.upserts.foldl applyInstallInstr st.installs
  let installs2 := match ei.installDelete with
    | none => installs1
    | some (did, imageIds) => deleteOldImageInstalls scope did imageIds installs1
  { st with devices := devices, installs := installs2 }

/-- The whole handler as a fallible store transformation: bad-request guard,
read-only resolution phase, then the write transaction.  Any raised error
aborts the write transaction, so an error leaves the store untouched. -/
def runStatePatchV3 (body : Body) (store : Store) : Except Err Store :=
  if (entriesOf body).isEmpty then .error .badRequest
  else
    match readPhase body store with
    | .error e => .error e
    | .ok resolved =>
      match processEntries resolved store.installs (entriesOf body) with
      | .error e => .error e
      | .ok eis => .ok (eis.foldl (applyEntryInstrs (resolved.images.map (·.id))) store)

/-- The handler with its catch block: on success the new store and a 200, on
any error the unchanged store and the mapped error response. -/
def statePatchV3 (body : Body) (store : Store) : Store × Response :=
  match runStatePatchV3 body store with
  | .ok s => (s, .ok200)
  | .error e => (store, respOf e)

/-- Store well-formedness assumed by the data model: device uuids are unique,
image locations are unique, and (commit, application) pairs of releases are
unique. -/
def WellFormedStore (s : Store) : Prop :=
  (s.devices.map (·.uuid)).Nodup
    ∧ (s.images.map (·.is_stored_at__image_location)).Nodup
    ∧ (s.releases.map (fun r => (r.commit, r.belongs_to__application))).Nodup

/-- Some reference of the batch does not resolve against the caller-visible
store: an unknown device uuid, an unknown image location, or a release commit
without a release of the claimed application. -/
def UnresolvedRef (body : Body) (store : Store) : Prop :=
  (∃ u ∈ uuidsOf body, ∀ d ∈ store.devices, d.uuid ≠ u)
    ∨ (∃ loc ∈ (collectRefs body).2, ∀ i ∈ store.images, i.is_stored_at__image_location ≠ loc)
    ∨ (∃ a rus, (a, rus) ∈ (collectRefs body).1
          ∧ ∃ ru ∈ rus, ∀ r ∈ store.releases,
              ¬(r.commit = ru ∧ r.belongs_to__application = a))

/-- Result of one call of the memoized wrapper: the observed value, the cache
afterwards, and whether the underlying function was invoked. -/
structure CacheCall (V : Type) where
  value : Option V
  cache : List (String × V)
  computed : Bool
  deriving DecidableEq, Repr

/-- The memoized wrapper produced by multiCache: a read-through cache keyed by
strings; on a miss the underlying function runs once and an undefined result
is stored as the undefinedAs sentinel; every retrieval maps the sentinel back
to undefined. -/
def memoizedFn {V : Type} [DecidableEq V] (fn : String → Option V) (undefinedAs : V)
    (key : String) (cache : List (String × V)) : CacheCall V :=
  match alookup cache key with
  | some v => ⟨if v = undefinedAs then none else some v, cache, false⟩
  | none =>
    let valueToCache := match fn key with
      | none => undefinedAs
      | some v => v
    ⟨if valueToCache = undefinedAs then none else some valueToCache,
      cache ++ [(key, valueToCache)], true⟩

/-! Generic list helpers used throughout the development. -/

theorem foldl_preserve {σ α : Type} (f : σ → α → σ) (P : σ → Prop)
    (h : ∀ s a, P s → P (f s a)) : ∀ (l : List α) (s : σ), P s → P (l.foldl f s)
  | [], _, hs => hs
  | a :: t, s, hs => foldl_preserve f P h t (f s a) (h s a hs)

theorem exists_find?_eq_some {α : Type} {p : α → Bool} :
    ∀ {l : List α}, (∃ x ∈ l, p x = true) → ∃ y, l.find? p = some y
  | [], h => absurd h (by simp)
  | a :: t, h => by
    cases hpa : p a with
    | true => exact ⟨a, List.find?_cons_of_pos t hpa⟩
    | false =>
      obtain ⟨x, hx, hpx⟩ := h
      rcases List.mem_cons.mp hx with rfl | hxt
      · rw [hpa] at hpx; cases hpx
      · obtain ⟨y, hy⟩ := exists_find?_eq_some ⟨x, hxt, hpx⟩
        exact ⟨y, by rw [List.find?_cons_of_neg t (by simp [hpa]), hy]⟩

theorem find?_filter_of_imp {α : Type} (p q : α → Bool)
    (h : ∀ a, q a = true → p a = true) :
    ∀ l : List α, (l.filter p).find? q = l.find? q
  | [] => rfl
  | a :: t => by
    by_cases hpa : p a = true
    · rw [List.filter_cons_of_pos hpa]
      by_cases hqa : q a = true
      · rw [List.find?_cons_of_pos _ hqa, List.find?_cons_of_pos _ hqa]
      · rw [List.find?_cons_of_neg _ (by simp [Bool.not_eq_true] at hqa ⊢; exact hqa),
          List.find?_cons_of_neg _ (by simp [Bool.not_eq_true] at hqa ⊢; exact hqa),
          find?_filter_of_imp p q h t]
    · have hqa : q a = false := by
        cases hq : q a
        · rfl
        · exact absurd (h a hq) hpa
      rw [List.filter_cons_of_neg (by simp [hpa]),
        List.find?_cons_of_neg _ (by simp [hqa]), find?_filter_of_imp p q h t]

theorem reverse_find?_of_nodup_key {α β : Type} [DecidableEq β] (key : α → β) (x : β) :
    ∀ l : List α, (l.map key).Nodup →
      l.reverse.find? (fun a => decide (key a = x)) = l.find? (fun a => decide (key a = x))
  | [], _ => rfl
  | a :: t, hnd => by
    have hnot : key a ∉ t.map key := (List.nodup_cons.mp (by simpa using hnd)).1
    have hnd' : (t.map key).Nodup := (List.nodup_cons.mp (by simpa using hnd)).2
    rw [List.reverse_cons, List.find?_append]
    by_cases hax : key a = x
    · have hnone : t.reverse.find? (fun b => decide (key b = x)) = none := by
        rw [List.find?_eq_none]
        intro b hb
        simp only [decide_eq_true_eq]
        intro hbx
        exact hnot (by
          rw [← hax] at hbx
          exact hbx ▸ List.mem_map_of_mem key (List.mem_reverse.mp hb))
      rw [hnone]
      simp [hax]
    · rw [reverse_find?_of_nodup_key key x t hnd',
        List.find?_cons_of_neg _ (by simp [hax])]
      cases h : t.find? (fun b => decide (key b = x)) <;> simp [h, List.find?, hax]

theorem key_count_lt {α β : Type} [DecidableEq β] (F : List α) (key : α → β)
    (refs : List β) (hnd : (F.map key).Nodup) (hsub : ∀ r ∈ F, key r ∈ refs)
    (x : β) (hx : x ∈ refs) (hmiss : ∀ r ∈ F, key r ≠ x) :
    F.length < refs.length := by
  have h1 : (F.map key).toFinset ⊆ refs.toFinset.erase x := by
    intro b hb
    rw [List.mem_toFinset, List.mem_map] at hb
    obtain ⟨r, hr, rfl⟩ := hb
    exact Finset.mem_erase.mpr ⟨hmiss r hr, List.mem_toFinset.mpr (hsub r hr)⟩
  calc F.length = (F.map key).length := (List.length_map F key).symm
    _ = (F.map key).toFinset.card := (List.toFinset_card_of_nodup hnd).symm
    _ ≤ (refs.toFinset.erase x).card := Finset.card_le_card h1
    _ < refs.toFinset.card := Finset.card_lt_card (Finset.erase_ssubset (List.mem_toFinset.mpr hx))
    _ ≤ refs.length := List.toFinset_card_le refs

theorem key_count_onto {α β : Type} [DecidableEq β] (F : List α) (key : α → β)
    (refs : List β) (hnd : (F.map key).Nodup) (hsub : ∀ r ∈ F, key r ∈ refs)
    (hlen : F.length = refs.length) : ∀ x ∈ refs, ∃ r ∈ F, key r = x := by
  have hsub' : (F.map key).toFinset ⊆ refs.toFinset := by
    intro b hb
    rw [List.mem_toFinset, List.mem_map] at hb
    obtain ⟨r, hr, rfl⟩ := hb
    exact List.mem_toFinset.mpr (hsub r hr)
  have hcards : refs.toFinset.card ≤ (F.map key).toFinset.card := by
    rw [List.toFinset_card_of_nodup hnd, List.length_map, hlen]
    exact List.toFinset_card_le refs
  have heq := Finset.eq_of_subset_of_card_le hsub' hcards
  intro x hx
  have : x ∈ (F.map key).toFinset := heq.symm ▸ List.mem_toFinset.mpr hx
  rw [List.mem_toFinset, List.mem_map] at this
  obtain ⟨r, hr, hrx⟩ := this
  exact ⟨r, hr, hrx⟩

theorem filter_map_key_nodup {α β : Type} (l : List α) (p : α → Bool) (key : α → β)
    (hnd : (l.map key).Nodup) : ((l.filter p).map key).Nodup :=
  List.Nodup.sublist (List.Sublist.map key (List.filter_sublist l)) hnd

/-! Lemmas about the association list primitives. -/

theorem alookup_append {β : Type} (m l : List (String × β)) (k : String) :
    alookup (m ++ l) k = match alookup m k with
      | some v => some v
      | none => alookup l k := by
  induction m with
  | nil => rfl
  | cons p rest ih =>
    by_cases h : p.1 = k
    · simp [alookup, h]
    · simp [alookup, h, ih]

theorem alookup_append_some {β : Type} {m : List (String × β)} {k : String} {v : β}
    (h : alookup m k = some v) (l : List (String × β)) : alookup (m ++ l) k = some v := by
  rw [alookup_append, h]

theorem alookup_mem {β : Type} : ∀ {m : List (String × β)} {k : String} {v : β},
    alookup m k = some v → (k, v) ∈ m := by
  intro m
  induction m with
  | nil => intro k v h; cases h
  | cons p rest ih =>
    intro k v h
    by_cases hp : p.1 = k
    · rw [alookup, if_pos hp] at h
      have hv := Option.some.inj h
      have hpe : p = (k, v) := by
        obtain ⟨p1, p2⟩ := p
        simp only at hp hv
        simp [hp, hv]
      rw [← hpe]
      exact List.mem_cons_self p rest
    · rw [alookup, if_neg hp] at h
      exact List.mem_cons_of_mem p (ih h)

theorem alookup_eq_none {β : Type} : ∀ (m : List (String × β)) (k : String),
    alookup m k = none ↔ k ∉ m.map Prod.fst := by
  intro m k
  induction m with
  | nil => simp [alookup]
  | cons p rest ih =>
    by_cases hp : p.1 = k
    · simp [alookup, hp]
    · simp [alookup, hp, ih, Ne.symm hp]

theorem setAdd_mem_self (s : List String) (x : String) : x ∈ setAdd s x := by
  by_cases h : x ∈ s <;> simp [setAdd, h]

theorem setAdd_mono {s : List String} {y : String} (h : y ∈ s) (x : String) :
    y ∈ setAdd s x := by
  by_cases hx : x ∈ s <;> simp [setAdd, hx, h]

theorem ensureApp_some {β : List String} {m : List (String × List String)} {k a : String}
    (h : alookup m k = some β) : alookup (ensureApp m a) k = some β := by
  unfold ensureApp
  split
  · exact h
  · exact alookup_append_some h _

theorem ensureApp_target (m : List (String × List String)) (a : String) :
    ∃ rus, alookup (ensureApp m a) a = some rus := by
  unfold ensureApp
  split
  · next h => exact Option.isSome_iff_exists.mp h
  · next h =>
    have hn : alookup m a = none := Option.not_isSome_iff_eq_none.mp h
    refine ⟨[], ?_⟩
    rw [alookup_append, hn]
    simp [alookup]

theorem ensureApp_keys_nodup {m : List (String × List String)} {a : String}
    (h : (m.map Prod.fst).Nodup) : ((ensureApp m a).map Prod.fst).Nodup := by
  unfold ensureApp
  split
  · exact h
  · next hn =>
    have : a ∉ m.map Prod.fst :=
      (alookup_eq_none m a).mp (Option.not_isSome_iff_eq_none.mp hn)
    simp [List.nodup_append, h, this]

theorem addAppRelease_map_fst (m : List (String × List String)) (a ru : String) :
    (addAppRelease m a ru).map Prod.fst = m.map Prod.fst := by
  unfold addAppRelease
  rw [List.map_map]
  apply List.map_congr_left
  intro p _
  by_cases h : p.1 = a <;> simp [h]

theorem addAppRelease_lookup_target :
    ∀ (m : List (String × List String)) (a ru : String) {rus : List String},
      alookup m a = some rus → alookup (addAppRelease m a ru) a = some (setAdd rus ru) := by
  intro m a ru
  induction m with
  | nil => intro rus h; cases h
  | cons p rest ih =>
    intro rus h
    by_cases hp : p.1 = a
    · rw [alookup, if_pos hp] at h
      have hv := Option.some.inj h
      simp [addAppRelease, alookup, hp, hv]
    · rw [alookup, if_neg hp] at h
      have := ih h
      simp only [addAppRelease, List.map] at this ⊢
      rw [alookup, if_neg (by simp [hp])]
      · exact this

theorem addAppRelease_cons (p : String × List String) (rest : List (String × List String))
    (a ru : String) :
    addAppRelease (p :: rest) a ru =
      (if p.1 = a then (p.1, setAdd p.2 ru) else p) :: addAppRelease rest a ru := by
  simp [addAppRelease]

theorem addAppRelease_lookup_grow :
    ∀ (m : List (String × List String)) (a ru k : String) {rus : List String},
      alookup m k = some rus →
      ∃ rus2, alookup (addAppRelease m a ru) k = some rus2 ∧ ∀ x ∈ rus, x ∈ rus2 := by
  intro m a ru
  induction m with
  | nil => intro k rus h; cases h
  | cons p rest ih =>
    intro k rus h
    rw [addAppRelease_cons]
    by_cases hp : p.1 = k
    · rw [alookup, if_pos hp] at h
      have hv := Option.some.inj h
      by_cases ha : p.1 = a
      · refine ⟨setAdd rus ru, ?_, fun x hx => setAdd_mono hx ru⟩
        rw [if_pos ha, alookup, if_pos hp, hv]
      · refine ⟨rus, ?_, fun x hx => hx⟩
        rw [if_neg ha, alookup, if_pos hp, hv]
    · rw [alookup, if_neg hp] at h
      obtain ⟨rus2, h2, hsub⟩ := ih k h
      refine ⟨rus2, ?_, hsub⟩
      by_cases ha : p.1 = a
      · rw [if_pos ha, alookup, if_neg hp]
        exact h2
      · rw [if_neg ha, alookup, if_neg hp]
        exact h2

/-! Lemmas about the reference collection pass. -/

theorem collectRelease_fst (a : String) (acc : RefAcc) (p : String × ReleaseEntry) :
    (collectRelease a acc p).1 = addAppRelease acc.1 a p.1 := by
  cases h : p.2.services <;> simp [collectRelease, h]

theorem collectRelease_snd_mono (a : String) (acc : RefAcc) (p : String × ReleaseEntry) :
    ∃ t, (collectRelease a acc p).2 = acc.2 ++ t := by
  cases h : p.2.services with
  | none => exact ⟨[], by simp [collectRelease, h]⟩
  | some svcs => exact ⟨svcs.map (fun s => s.2.image), by simp [collectRelease, h]⟩

theorem collectAppSets_grow {m : List (String × List String)} {k : String}
    {rus : List String} (p : String × AppEntry) (h : alookup m k = some rus) :
    ∃ rus2, alookup (collectAppSets m p) k = some rus2 ∧ ∀ x ∈ rus, x ∈ rus2 := by
  have h0 : alookup (ensureApp m p.1) k = some rus := ensureApp_some h
  unfold collectAppSets
  cases hru : p.2.release_uuid with
  | none => exact ⟨rus, h0, fun x hx => hx⟩
  | some ru =>
    by_cases he : ru = ""
    · simp only [he, if_pos rfl]
      exact ⟨rus, h0, fun x hx => hx⟩
    · simp only [if_neg he]
      exact addAppRelease_lookup_grow _ p.1 ru k h0

theorem collectAppSets_target (m : List (String × List String)) (p : String × AppEntry) :
    ∃ rus, alookup (collectAppSets m p) p.1 = some rus := by
  obtain ⟨rus0, h0⟩ := ensureApp_target m p.1
  unfold collectAppSets
  cases hru : p.2.release_uuid with
  | none => exact ⟨rus0, h0⟩
  | some ru =>
    by_cases he : ru = ""
    · simp only [he, if_pos rfl]
      exact ⟨rus0, h0⟩
    · simp only [if_neg he]
      exact ⟨setAdd rus0 ru, addAppRelease_lookup_target _ p.1 ru h0⟩

theorem collectAppSets_keys_nodup {m : List (String × List String)} (p : String × AppEntry)
    (h : (m.map Prod.fst).Nodup) : ((collectAppSets m p).map Prod.fst).Nodup := by
  have h0 := ensureApp_keys_nodup (m := m) (a := p.1) h
  unfold collectAppSets
  cases hru : p.2.release_uuid with
  | none => exact h0
  | some ru =>
    by_cases he : ru = ""
    · simp only [he, if_pos rfl]
      exact h0
    · simp only [if_neg he]
      rw [addAppRelease_map_fst]
      exact h0

theorem foldl_establish_cond {σ α : Type} (f : σ → α → σ) (P Q : σ → Prop) (x : α)
    (hx : ∀ s, Q s → P (f s x)) (hpresP : ∀ s y, P s → P (f s y))
    (hpresQ : ∀ s y, Q s → Q (f s y)) :
    ∀ (l : List α) (s : σ), Q s → x ∈ l → P (l.foldl f s) := by
  intro l
  induction l with
  | nil => intro s _ hm; cases hm
  | cons y rest ih =>
    intro s hQ hm
    rw [List.foldl_cons]
    rcases List.mem_cons.mp hm with rfl | hmt
    · exact foldl_preserve f P hpresP rest (f s x) (hx s hQ)
    · exact ih (f s y) (hpresQ s y hQ) hmt

/-- Presence of a release-set key is preserved by every collection step. -/
def KeyPresent (a : String) (acc : RefAcc) : Prop :=
  ∃ rus, alookup acc.1 a = some rus

/-- A recorded release commit stays recorded through every collection step. -/
def CommitRecorded (a ru : String) (acc : RefAcc) : Prop :=
  ∃ rus, alookup acc.1 a = some rus ∧ ru ∈ rus

/-- A pushed image location stays pushed through every collection step. -/
def LocRecorded (loc : String) (acc : RefAcc) : Prop :=
  loc ∈ acc.2

theorem collectRelease_presCommit (a' : String) (acc : RefAcc) (p : String × ReleaseEntry)
    {a ru : String} (h : CommitRecorded a ru acc) :
    CommitRecorded a ru (collectRelease a' acc p) := by
  obtain ⟨rus, hl, hm⟩ := h
  obtain ⟨rus2, hl2, hsub⟩ := addAppRelease_lookup_grow acc.1 a' p.1 a hl
  exact ⟨rus2, by rw [collectRelease_fst]; exact hl2, hsub ru hm⟩

theorem collectRelease_presKey (a' : String) (acc : RefAcc) (p : String × ReleaseEntry)
    {a : String} (h : KeyPresent a acc) : KeyPresent a (collectRelease a' acc p) := by
  obtain ⟨rus, hl⟩ := h
  obtain ⟨rus2, hl2, _⟩ := addAppRelease_lookup_grow acc.1 a' p.1 a hl
  exact ⟨rus2, by rw [collectRelease_fst]; exact hl2⟩

theorem collectRelease_presLoc (a' : String) (acc : RefAcc) (p : String × ReleaseEntry)
    {loc : String} (h : LocRecorded loc acc) : LocRecorded loc (collectRelease a' acc p) := by
  obtain ⟨t, ht⟩ := collectRelease_snd_mono a' acc p
  unfold LocRecorded
  rw [ht]
  exact List.mem_append_left t h

theorem collectApp_presCommit (acc : RefAcc) (p : String × AppEntry) {a ru : String}
    (h : CommitRecorded a ru acc) : CommitRecorded a ru (collectApp acc p) := by
  obtain ⟨rus, hl, hm⟩ := h
  obtain ⟨rus2, hl2, hsub⟩ := collectAppSets_grow p hl
  have hmid : CommitRecorded a ru (collectAppSets acc.1 p, acc.2) := ⟨rus2, hl2, hsub ru hm⟩
  unfold collectApp
  cases hrel : p.2.releases with
  | none => exact hmid
  | some rels =>
    exact foldl_preserve (collectRelease p.1) (CommitRecorded a ru)
      (fun s x hs => collectRelease_presCommit p.1 s x hs) rels _ hmid

theorem collectApp_presKey (acc : RefAcc) (p : String × AppEntry) {a : String}
    (h : KeyPresent a acc) : KeyPresent a (collectApp acc p) := by
  obtain ⟨rus, hl⟩ := h
  obtain ⟨rus2, hl2, _⟩ := collectAppSets_grow p hl
  have hmid : KeyPresent a (collectAppSets acc.1 p, acc.2) := ⟨rus2, hl2⟩
  unfold collectApp
  cases hrel : p.2.releases with
  | none => exact hmid
  | some rels =>
    exact foldl_preserve (collectRelease p.1) (KeyPresent a)
      (fun s x hs => collectRelease_presKey p.1 s x hs) rels _ hmid

theorem collectApp_presLoc (acc : RefAcc) (p : String × AppEntry) {loc : String}
    (h : LocRecorded loc acc) : LocRecorded loc (collectApp acc p) := by
  have hmid : LocRecorded loc (collectAppSets acc.1 p, acc.2) := h
  unfold collectApp
  cases hrel : p.2.releases with
  | none => exact hmid
  | some rels =>
    exact foldl_preserve (collectRelease p.1) (LocRecorded loc)
      (fun s x hs => collectRelease_presLoc p.1 s x hs) rels _ hmid

theorem collectEntry_presCommit (acc : RefAcc) (p : String × DeviceEntry) {a ru : String}
    (h : CommitRecorded a ru acc) : CommitRecorded a ru (collectEntry acc p) := by
  unfold collectEntry
  cases happ : p.2.apps with
  | none => exact h
  | some apps =>
    exact foldl_preserve collectApp (CommitRecorded a ru)
      (fun s x hs => collectApp_presCommit s x hs) apps acc h

theorem collectEntry_presKey (acc : RefAcc) (p : String × DeviceEntry) {a : String}
    (h : KeyPresent a acc) : KeyPresent a (collectEntry acc p) := by
  unfold collectEntry
  cases happ : p.2.apps with
  | none => exact h
  | some apps =>
    exact foldl_preserve collectApp (KeyPresent a)
      (fun s x hs => collectApp_presKey s x hs) apps acc h

theorem collectEntry_presLoc (acc : RefAcc) (p : String × DeviceEntry) {loc : String}
    (h : LocRecorded loc acc) : LocRecorded loc (collectEntry acc p) := by
  unfold collectEntry
  cases happ : p.2.apps with
  | none => exact h
  | some apps =>
    exact foldl_preserve collectApp (LocRecorded loc)
      (fun s x hs => collectApp_presLoc s x hs) apps acc h

theorem collectApp_establishKey (acc : RefAcc) (a : String) (ae : AppEntry) :
    KeyPresent a (collectApp acc (a, ae)) := by
  obtain ⟨rus, hl⟩ := collectAppSets_target acc.1 (a, ae)
  have hmid : KeyPresent a (collectAppSets acc.1 (a, ae), acc.2) := ⟨rus, hl⟩
  unfold collectApp
  cases hrel : ae.releases with
  | none => exact hmid
  | some rels =>
    exact foldl_preserve (collectRelease a) (KeyPresent a)
      (fun s x hs => collectRelease_presKey a s x hs) rels _ hmid

theorem collectApp_establishCommit (acc : RefAcc) (a : String) (ae : AppEntry)
    {rlist : List (String × ReleaseEntry)} {ru : String} {re : ReleaseEntry}
    (hrel : ae.releases = some rlist) (hm : (ru, re) ∈ rlist) :
    CommitRecorded a ru (collectApp acc (a, ae)) := by
  obtain ⟨rus, hl⟩ := collectAppSets_target acc.1 (a, ae)
  have hmid : KeyPresent a (collectAppSets acc.1 (a, ae), acc.2) := ⟨rus, hl⟩
  unfold collectApp
  rw [hrel]
  refine foldl_establish_cond (collectRelease a) (CommitRecorded a ru) (KeyPresent a)
    (ru, re) ?_ (fun s x hs => collectRelease_presCommit a s x hs)
    (fun s x hs => collectRelease_presKey a s x hs) rlist _ hmid hm
  intro s hs
  obtain ⟨rus0, hl0⟩ := hs
  exact ⟨setAdd rus0 ru, by
    rw [collectRelease_fst]
    exact addAppRelease_lookup_target s.1 a ru hl0, setAdd_mem_self rus0 ru⟩

theorem collectApp_establishLoc (acc : RefAcc) (a : String) (ae : AppEntry)
    {rlist : List (String × ReleaseEntry)} {ru : String} {re : ReleaseEntry}
    {svcs : List (String × ServiceEntry)} {n : String} {svc : ServiceEntry}
    (hrel : ae.releases = some rlist) (hm : (ru, re) ∈ rlist)
    (hsv : re.services = some svcs) (hms : (n, svc) ∈ svcs) :
    LocRecorded svc.image (collectApp acc (a, ae)) := by
  unfold collectApp
  rw [hrel]
  refine foldl_establish_cond (collectRelease a) (LocRecorded svc.image) (fun _ => True)
    (ru, re) ?_ (fun s x hs => collectRelease_presLoc a s x hs)
    (fun _ _ _ => trivial) rlist _ trivial hm
  intro s _
  unfold LocRecorded collectRelease
  rw [hsv]
  exact List.mem_append_right s.2 (List.mem_map_of_mem (fun q => q.2.image) hms)

theorem collectEntry_establish {P : RefAcc → Prop} (p : String × DeviceEntry)
    {apps : List (String × AppEntry)} {a : String} {ae : AppEntry}
    (happ : p.2.apps = some apps) (hm : (a, ae) ∈ apps)
    (hx : ∀ s, P (collectApp s (a, ae))) (hpres : ∀ s y, P s → P (collectApp s y)) :
    ∀ acc, P (collectEntry acc p) := by
  intro acc
  unfold collectEntry
  rw [happ]
  exact foldl_establish_cond collectApp P (fun _ => True) (a, ae)
    (fun s _ => hx s) hpres (fun _ _ _ => trivial) apps acc trivial hm

theorem collectRefs_establish {P : RefAcc → Prop} {body : Body} {u : String}
    {e : DeviceEntry} {apps : List (String × AppEntry)} {a : String} {ae : AppEntry}
    (hme : (u, e) ∈ entriesOf body) (happ : e.apps = some apps) (hm : (a, ae) ∈ apps)
    (hx : ∀ s, P (collectApp s (a, ae))) (hpresApp : ∀ s y, P s → P (collectApp s y))
    (hpresEntry : ∀ s y, P s → P (collectEntry s y)) : P (collectRefs body) := by
  unfold collectRefs
  exact foldl_establish_cond collectEntry P (fun _ => True) (u, e)
    (fun s _ => collectEntry_establish (u, e) happ hm hx hpresApp s)
    hpresEntry (fun _ _ _ => trivial) (entriesOf body) ([], []) trivial hme

theorem collectRefs_app_present {body : Body} {u : String} {e : DeviceEntry}
    {apps : List (String × AppEntry)} {a : String} {ae : AppEntry}
    (hme : (u, e) ∈ entriesOf body) (happ : e.apps = some apps) (hm : (a, ae) ∈ apps) :
    ∃ rus, alookup (collectRefs body).1 a = some rus :=
  collectRefs_establish (P := KeyPresent a) hme happ hm
    (fun s => collectApp_establishKey s a ae)
    (fun s y hs => collectApp_presKey s y hs)
    (fun s y hs => collectEntry_presKey s y hs)

theorem collectRefs_commit_mem {body : Body} {u : String} {e : DeviceEntry}
    {apps : List (String × AppEntry)} {a : String} {ae : AppEntry}
    {rlist : List (String × ReleaseEntry)} {ru : String} {re : ReleaseEntry}
    (hme : (u, e) ∈ entriesOf body) (happ : e.apps = some apps) (hm : (a, ae) ∈ apps)
    (hrel : ae.releases = some rlist) (hmr : (ru, re) ∈ rlist) :
    ∃ rus, alookup (collectRefs body).1 a = some rus ∧ ru ∈ rus :=
  collectRefs_establish (P := CommitRecorded a ru) hme happ hm
    (fun s => collectApp_establishCommit s a ae hrel hmr)
    (fun s y hs => collectApp_presCommit s y hs)
    (fun s y hs => collectEntry_presCommit s y hs)

theorem collectRefs_img_mem {body : Body} {u : String} {e : DeviceEntry}
    {apps : List (String × AppEntry)} {a : String} {ae : AppEntry}
    {rlist : List (String × ReleaseEntry)} {ru : String} {re : ReleaseEntry}
    {svcs : List (String × ServiceEntry)} {n : String} {svc : ServiceEntry}
    (hme : (u, e) ∈ entriesOf body) (happ : e.apps = some apps) (hm : (a, ae) ∈ apps)
    (hrel : ae.releases = some rlist) (hmr : (ru, re) ∈ rlist)
    (hsv : re.services = some svcs) (hms : (n, svc) ∈ svcs) :
    svc.image ∈ (collectRefs body).2 :=
  collectRefs_establish (P := LocRecorded svc.image) hme happ hm
    (fun s => collectApp_establishLoc s a ae hrel hmr hsv hms)
    (fun s y hs => collectApp_presLoc s y hs)
    (fun s y hs => collectEntry_presLoc s y hs)

theorem collectRelease_keys_nodup (a' : String) (acc : RefAcc) (p : String × ReleaseEntry)
    (h : (acc.1.map Prod.fst).Nodup) : ((collectRelease a' acc p).1.map Prod.fst).Nodup := by
  rw [collectRelease_fst, addAppRelease_map_fst]
  exact h

theorem collectApp_keys_nodup (acc : RefAcc) (p : String × AppEntry)
    (h : (acc.1.map Prod.fst).Nodup) : ((collectApp acc p).1.map Prod.fst).Nodup := by
  have hmid : ((collectAppSets acc.1 p).map Prod.fst).Nodup := collectAppSets_keys_nodup p h
  unfold collectApp
  cases hrel : p.2.releases with
  | none => exact hmid
  | some rels =>
    exact foldl_preserve (collectRelease p.1) (fun s => (s.1.map Prod.fst).Nodup)
      (fun s x hs => collectRelease_keys_nodup p.1 s x hs) rels _ hmid

theorem collectEntry_keys_nodup (acc : RefAcc) (p : String × DeviceEntry)
    (h : (acc.1.map Prod.fst).Nodup) : ((collectEntry acc p).1.map Prod.fst).Nodup := by
  unfold collectEntry
  cases happ : p.2.apps with
  | none => exact h
  | some apps =>
    exact foldl_preserve collectApp (fun s => (s.1.map Prod.fst).Nodup)
      (fun s x hs => collectApp_keys_nodup s x hs) apps acc h

theorem collectRefs_keys_nodup (body : Body) : ((collectRefs body).1.map Prod.fst).Nodup := by
  unfold collectRefs
  exact foldl_preserve collectEntry (fun s => (s.1.map Prod.fst).Nodup)
    (fun s x hs => collectEntry_keys_nodup s x hs) (entriesOf body) ([], []) (by simp)

/-! Lemmas about the read-only resolution phase. -/

theorem commits_nodup (a : String) :
    ∀ l : List ReleaseRow,
      (l.map (fun r => (r.commit, r.belongs_to__application))).Nodup →
      (∀ r ∈ l, r.belongs_to__application = a) → (l.map (·.commit)).Nodup
  | [], _, _ => by simp
  | r :: t, hnd, hall => by
    rw [List.map_cons, List.nodup_cons] at hnd ⊢
    refine ⟨?_, commits_nodup a t hnd.2 (fun x hx => hall x (List.mem_cons_of_mem r hx))⟩
    intro hmem
    rw [List.mem_map] at hmem
    obtain ⟨r2, hr2, hcom⟩ := hmem
    apply hnd.1
    rw [List.mem_map]
    refine ⟨r2, hr2, ?_⟩
    have h1 := hall r2 (List.mem_cons_of_mem r hr2)
    have h2 := hall r (List.mem_cons_self r t)
    rw [Prod.mk.injEq]
    exact ⟨hcom, h1.trans h2.symm⟩

theorem devicesFor_sub {store : Store} {uuids : List String} {d : DeviceRow}
    (h : d ∈ devicesFor store uuids) : d ∈ store.devices :=
  List.mem_of_mem_filter h

theorem devicesFor_key {store : Store} {uuids : List String} {d : DeviceRow}
    (h : d ∈ devicesFor store uuids) : d.uuid ∈ uuids := by
  have := (List.mem_filter.mp h).2
  simpa using this

theorem devicesFor_key_nodup (store : Store) (uuids : List String)
    (hw : (store.devices.map (·.uuid)).Nodup) :
    ((devicesFor store uuids).map (·.uuid)).Nodup :=
  filter_map_key_nodup _ _ _ hw

theorem imagesFor_sub {store : Store} {locs : List String} {i : ImageRow}
    (h : i ∈ imagesFor store locs) : i ∈ store.images :=
  List.mem_of_mem_filter h

theorem imagesFor_key {store : Store} {locs : List String} {i : ImageRow}
    (h : i ∈ imagesFor store locs) : i.is_stored_at__image_location ∈ locs := by
  have := (List.mem_filter.mp h).2
  simpa using this

theorem imagesFor_key_nodup (store : Store) (locs : List String)
    (hw : (store.images.map (·.is_stored_at__image_location)).Nodup) :
    ((imagesFor store locs).map (·.is_stored_at__image_location)).Nodup :=
  filter_map_key_nodup _ _ _ hw

theorem releasesFor_app {store : Store} {a : String} {rus : List String} {r : ReleaseRow}
    (h : r ∈ releasesFor store a rus) : r.belongs_to__application = a := by
  have := (List.mem_filter.mp h).2
  simp at this
  exact this.2

theorem releasesFor_commit {store : Store} {a : String} {rus : List String} {r : ReleaseRow}
    (h : r ∈ releasesFor store a rus) : r.commit ∈ rus := by
  have := (List.mem_filter.mp h).2
  simp at this
  exact this.1

theorem releasesFor_sub {store : Store} {a : String} {rus : List String} {r : ReleaseRow}
    (h : r ∈ releasesFor store a rus) : r ∈ store.releases :=
  List.mem_of_mem_filter h

theorem releasesFor_commits_nodup (store : Store) (a : String) (rus : List String)
    (hw : (store.releases.map (fun r => (r.commit, r.belongs_to__application))).Nodup) :
    ((releasesFor store a rus).map (·.commit)).Nodup :=
  commits_nodup a _ (filter_map_key_nodup _ _ _ hw) (fun _ hr => releasesFor_app hr)

theorem resolveImages_error {store : Store} {locs : List String} {e : Err}
    (h : resolveImages store locs = .error e) : e = .unauthorized := by
  unfold resolveImages at h
  split at h
  · exact Except.noConfusion h
  · split at h
    · injection h with h
      exact h.symm
    · exact Except.noConfusion h

theorem resolveImages_ok_eq {store : Store} {locs : List String} {imgs : List ImageRow}
    (h : resolveImages store locs = .ok imgs) :
    (locs = [] ∧ imgs = [])
      ∨ (imgs = imagesFor store locs ∧ locs.length = imgs.length) := by
  unfold resolveImages at h
  split at h
  · next hempty =>
    left
    exact ⟨List.isEmpty_iff.mp hempty, (Except.ok.inj h).symm⟩
  · split at h
    · exact Except.noConfusion h
    · next hlen =>
      right
      have heq := Except.ok.inj h
      refine ⟨heq.symm, ?_⟩
      rw [← heq]
      omega

theorem resolveImages_covers {store : Store} {locs : List String} {imgs : List ImageRow}
    (hw : (store.images.map (·.is_stored_at__image_location)).Nodup)
    (h : resolveImages store locs = .ok imgs) :
    ∀ loc ∈ locs, ∃ i ∈ imgs, i.is_stored_at__image_location = loc := by
  rcases resolveImages_ok_eq h with ⟨hl, _⟩ | ⟨himgs, hlen⟩
  · intro loc hloc
    rw [hl] at hloc
    cases hloc
  · intro loc hloc
    subst himgs
    refine key_count_onto (imagesFor store locs) (fun i => i.is_stored_at__image_location)
      locs (imagesFor_key_nodup store locs hw) (fun r hr => imagesFor_key hr)
      hlen.symm loc hloc

theorem resolveImages_fails {store : Store} {locs : List String} {loc : String}
    (hw : (store.images.map (·.is_stored_at__image_location)).Nodup)
    (hloc : loc ∈ locs)
    (hmiss : ∀ i ∈ store.images, i.is_stored_at__image_location ≠ loc) :
    resolveImages store locs = .error .unauthorized := by
  have hne : locs.isEmpty = false := by
    cases locs
    · cases hloc
    · rfl
  have hlt : (imagesFor store locs).length < locs.length :=
    key_count_lt (imagesFor store locs) (fun i => i.is_stored_at__image_location) locs
      (imagesFor_key_nodup store locs hw) (fun r hr => imagesFor_key hr) loc hloc
      (fun r hr => hmiss r (imagesFor_sub hr))
  unfold resolveImages
  rw [if_neg (by simp [hne]), if_pos (by omega)]

theorem resolveReleases_error {store : Store} :
    ∀ {l : List (String × List String)} {e : Err},
      resolveReleases store l = .error e → e = .unauthorized := by
  intro l
  induction l with
  | nil => intro e h; exact Except.noConfusion h
  | cons p rest ih =>
    obtain ⟨a0, rus0⟩ := p
    intro e h
    simp only [resolveReleases] at h
    split at h
    · injection h with h
      exact h.symm
    · split at h
      · next e2 heq =>
        injection h with h
        exact h ▸ ih heq
      · exact Except.noConfusion h

theorem resolveReleases_onto {store : Store} {a : String} {rus : List String}
    (hw : (store.releases.map (fun r => (r.commit, r.belongs_to__application))).Nodup)
    (hlen : (releasesFor store a rus).length = rus.length) :
    ∀ ru ∈ rus, ∃ r ∈ releasesFor store a rus, r.commit = ru :=
  key_count_onto (releasesFor store a rus) (·.commit) rus
    (releasesFor_commits_nodup store a rus hw) (fun _ hr => releasesFor_commit hr) hlen

theorem resolveReleases_covers {store : Store}
    (hw : (store.releases.map (fun r => (r.commit, r.belongs_to__application))).Nodup) :
    ∀ {l : List (String × List String)} {out : List (String × List ReleaseRow)},
      (l.map Prod.fst).Nodup → resolveReleases store l = .ok out →
      ∀ {a : String} {rus : List String}, (a, rus) ∈ l →
        ∃ rels, alookup out a = some rels ∧ ∀ ru ∈ rus, ∃ r ∈ rels, r.commit = ru := by
  intro l
  induction l with
  | nil => intro out _ _ a rus hm; cases hm
  | cons p rest ih =>
    obtain ⟨a0, rus0⟩ := p
    intro out hnd h a rus hm
    have hnd2 : a0 ∉ rest.map Prod.fst ∧ (rest.map Prod.fst).Nodup := by
      rw [List.map_cons, List.nodup_cons] at hnd
      exact hnd
    simp only [resolveReleases] at h
    split at h
    · exact Except.noConfusion h
    · next hlen =>
      split at h
      · exact Except.noConfusion h
      · next tail heq =>
        have hout := Except.ok.inj h
        rcases List.mem_cons.mp hm with hpair | hmt
        · have ha : a = a0 := congrArg Prod.fst hpair
          have hrus : rus = rus0 := congrArg Prod.snd hpair
          refine ⟨releasesFor store a0 rus0, ?_, ?_⟩
          · rw [← hout, ha, alookup, if_pos rfl]
          · intro ru hru
            exact resolveReleases_onto hw (by omega) ru (hrus ▸ hru)
        · have hane : a ≠ a0 := by
            intro hc
            apply hnd2.1
            rw [List.mem_map]
            exact ⟨(a, rus), hmt, hc⟩
          obtain ⟨rels, hl2, honto⟩ := ih hnd2.2 heq hmt
          refine ⟨rels, ?_, honto⟩
          rw [← hout, alookup, if_neg (fun hc => hane hc.symm)]
          exact hl2

theorem resolveReleases_fails {store : Store}
    (hw : (store.releases.map (fun r => (r.commit, r.belongs_to__application))).Nodup) :
    ∀ {l : List (String × List String)} {a : String} {rus : List String} {ru : String},
      (a, rus) ∈ l → ru ∈ rus →
      (∀ r ∈ store.releases, ¬(r.commit = ru ∧ r.belongs_to__application = a)) →
      resolveReleases store l = .error .unauthorized := by
  intro l
  induction l with
  | nil => intro a rus ru hm; cases hm
  | cons p rest ih =>
    obtain ⟨a0, rus0⟩ := p
    intro a rus ru hm hru hmiss
    simp only [resolveReleases]
    split
    · rfl
    · next hlen =>
      rcases List.mem_cons.mp hm with hpair | hmt
      · exfalso
        have ha : a = a0 := congrArg Prod.fst hpair
        have hrus : rus = rus0 := congrArg Prod.snd hpair
        subst ha
        subst hrus
        have hlt : (releasesFor store a rus).length < rus.length :=
          key_count_lt (releasesFor store a rus) (·.commit) rus
            (releasesFor_commits_nodup store a rus hw)
            (fun r hr => releasesFor_commit hr) ru hru
            (by
              intro r hr hc
              exact hmiss r (releasesFor_sub hr) ⟨hc, releasesFor_app hr⟩)
        omega
      · rw [ih hmt hru hmiss]

theorem readPhase_error {body : Body} {store : Store} {e : Err}
    (h : readPhase body store = .error e) : e = .unauthorized := by
  unfold readPhase at h
  split at h
  · injection h with h
    exact h.symm
  · split at h
    · next e2 heq =>
      injection h with h
      exact h ▸ resolveImages_error heq
    · split at h
      · next e2 heq =>
        injection h with h
        exact h ▸ resolveReleases_error heq
      · exact Except.noConfusion h

theorem readPhase_ok_parts {body : Body} {store : Store} {resolved : Resolved}
    (h : readPhase body store = .ok resolved) :
    resolved.devices = devicesFor store (uuidsOf body)
      ∧ resolveImages store (collectRefs body).2 = .ok resolved.images
      ∧ resolveReleases store (collectRefs body).1 = .ok resolved.appReleases := by
  unfold readPhase at h
  split at h
  · exact Except.noConfusion h
  · split at h
    · exact Except.noConfusion h
    · next images heqI =>
      split at h
      · exact Except.noConfusion h
      · next appRel heqR =>
        have hout := Except.ok.inj h
        rw [← hout]
        exact ⟨rfl, heqI, heqR⟩

theorem readPhase_fails {body : Body} {store : Store} (hwf : WellFormedStore store)
    (hun : UnresolvedRef body store) : readPhase body store = .error .unauthorized := by
  obtain ⟨hwd, hwi, hwr⟩ := hwf
  unfold readPhase
  by_cases hdev : (devicesFor store (uuidsOf body)).length ≠ (uuidsOf body).length
  · rw [if_pos hdev]
  · rw [if_neg hdev]
    rcases hun with ⟨u, hu, hmiss⟩ | ⟨loc, hloc, hmiss⟩ | ⟨a, rus, hm, ru, hru, hmiss⟩
    · exfalso
      have hlt : (devicesFor store (uuidsOf body)).length < (uuidsOf body).length :=
        key_count_lt (devicesFor store (uuidsOf body)) (·.uuid) (uuidsOf body)
          (devicesFor_key_nodup store _ hwd) (fun r hr => devicesFor_key hr) u hu
          (fun r hr => hmiss r (devicesFor_sub hr))
      omega
    · rw [resolveImages_fails hwi hloc hmiss]
    · cases hI : resolveImages store (collectRefs body).2 with
      | error e =>
        have he := resolveImages_error hI
        subst he
        rfl
      | ok imgs =>
        rw [resolveReleases_fails hwr hm hru hmiss]

theorem unresolved_entries_ne_nil {body : Body} {store : Store}
    (h : UnresolvedRef body store) : entriesOf body ≠ [] := by
  intro hnil
  rcases h with ⟨u, hu, _⟩ | ⟨loc, hloc, _⟩ | ⟨a, rus, hm, _⟩
  · rw [uuidsOf, hnil] at hu
    cases hu
  · have hc : collectRefs body = ([], []) := by rw [collectRefs, hnil]; rfl
    rw [hc] at hloc
    cases hloc
  · have hc : collectRefs body = ([], []) := by rw [collectRefs, hnil]; rfl
    rw [hc] at hm
    cases hm

/-! Error classification of the write phase. -/

theorem buildDeviceBody_error {entry : DeviceEntry} {device : DeviceRow}
    {appReleases : List (String × List ReleaseRow)} {e : Err}
    (h : buildDeviceBody entry device appReleases = .error e) : e = .typeError := by
  unfold buildDeviceBody at h
  split at h
  · exact Except.noConfusion h
  · split at h
    · injection h with h
      exact h.symm
    · split at h
      · exact Except.noConfusion h
      · split at h
        · injection h with h
          exact h.symm
        · split at h
          · exact Except.noConfusion h
          · exact Except.noConfusion h

theorem buildServiceInstalls_error {images : List ImageRow} {releaseId : Nat} :
    ∀ {l : List (String × ServiceEntry)} {e : Err},
      buildServiceInstalls images releaseId l = .error e → e = .internal := by
  intro l
  induction l with
  | nil => intro e h; exact Except.noConfusion h
  | cons q rest ih =>
    obtain ⟨n, svc⟩ := q
    intro e h
    simp only [buildServiceInstalls] at h
    split at h
    · injection h with h
      exact h.symm
    · split at h
      · next e2 heq =>
        injection h with h
        exact h ▸ ih heq
      · exact Except.noConfusion h

theorem buildReleaseInstalls_error {images : List ImageRow}
    {appReleases : List (String × List ReleaseRow)} {a : String} :
    ∀ {l : List (String × ReleaseEntry)} {e : Err},
      buildReleaseInstalls images appReleases a l = .error e →
      e = .internal ∨ e = .typeError := by
  intro l
  induction l with
  | nil => intro e h; exact Except.noConfusion h
  | cons q rest ih =>
    obtain ⟨ru, re⟩ := q
    intro e h
    simp only [buildReleaseInstalls] at h
    split at h
    · injection h with h
      exact Or.inr h.symm
    · split at h
      · injection h with h
        exact Or.inl h.symm
      · split at h
        · next e2 heq =>
          injection h with h
          exact h ▸ Or.inl (buildServiceInstalls_error heq)
        · split at h
          · next e2 heq =>
            injection h with h
            exact h ▸ ih heq
          · exact Except.noConfusion h

theorem buildAppInstalls_error {images : List ImageRow}
    {appReleases : List (String × List ReleaseRow)} :
    ∀ {l : List (String × AppEntry)} {e : Err},
      buildAppInstalls images appReleases l = .error e →
      e = .internal ∨ e = .typeError := by
  intro l
  induction l with
  | nil => intro e h; exact Except.noConfusion h
  | cons q rest ih =>
    obtain ⟨a, ae⟩ := q
    intro e h
    simp only [buildAppInstalls] at h
    split at h
    · next e2 heq =>
      injection h with h
      exact h ▸ buildReleaseInstalls_error heq
    · split at h
      · next e2 heq =>
        injection h with h
        exact h ▸ ih heq
      · exact Except.noConfusion h

theorem processEntry_error {resolved : Resolved} {installs : List ImageInstallRow}
    {u : String} {entry : DeviceEntry} {e : Err}
    (h : processEntry resolved installs u entry = .error e) : e ≠ .badRequest := by
  unfold processEntry at h
  split at h
  · injection h with h
    intro hc
    rw [← h] at hc
    exact Err.noConfusion hc
  · split at h
    · next e2 heq =>
      injection h with h
      rw [← h, buildDeviceBody_error heq]
      intro hc
      exact Err.noConfusion hc
    · split at h
      · exact Except.noConfusion h
      · split at h
        · next e2 heq =>
          injection h with h
          rw [← h]
          rcases buildAppInstalls_error heq with h2 | h2 <;>
            · rw [h2]
              intro hc
              exact Err.noConfusion hc
        · exact Except.noConfusion h

theorem processEntries_error {resolved : Resolved} {installs : List ImageInstallRow} :
    ∀ {l : List (String × DeviceEntry)} {e : Err},
      processEntries resolved installs l = .error e → e ≠ .badRequest := by
  intro l
  induction l with
  | nil => intro e h; exact Except.noConfusion h
  | cons q rest ih =>
    obtain ⟨u, entry⟩ := q
    intro e h
    simp only [processEntries] at h
    split at h
    · next e2 heq =>
      injection h with h
      exact h ▸ processEntry_error heq
    · split at h
      · next e2 heq =>
        injection h with h
        exact h ▸ ih heq
      · exact Except.noConfusion h

/-! Success of the candidate builders under the coverage facts guaranteed by a
passed read phase. -/

theorem buildServiceInstalls_ok {images : List ImageRow} {releaseId : Nat} :
    ∀ {svcs : List (String × ServiceEntry)},
      (∀ n svc, (n, svc) ∈ svcs → ∃ i ∈ images, i.is_stored_at__image_location = svc.image) →
      ∃ out, buildServiceInstalls images releaseId svcs = .ok out := by
  intro svcs
  induction svcs with
  | nil => intro _; exact ⟨[], rfl⟩
  | cons q rest ih =>
    obtain ⟨n, svc⟩ := q
    intro h
    obtain ⟨i, hi, hloc⟩ := h n svc (List.mem_cons_self _ _)
    obtain ⟨y, hy⟩ := exists_find?_eq_some
      (p := fun i => decide (i.is_stored_at__image_location = svc.image))
      ⟨i, hi, by simp [hloc]⟩
    obtain ⟨tail, htail⟩ := ih (fun n2 s2 hm => h n2 s2 (List.mem_cons_of_mem _ hm))
    refine ⟨⟨y.id, releaseId, svc.status, svc.download_progress⟩ :: tail, ?_⟩
    simp only [buildServiceInstalls]
    rw [hy, htail]

theorem buildReleaseInstalls_ok {images : List ImageRow}
    {appReleases : List (String × List ReleaseRow)} {a : String} {rels : List ReleaseRow}
    (hars : alookup appReleases a = some rels) :
    ∀ {rlist : List (String × ReleaseEntry)},
      (∀ ru re, (ru, re) ∈ rlist → (∃ r ∈ rels, r.commit = ru) ∧
        (∀ svcs, re.services = some svcs → ∀ n svc, (n, svc) ∈ svcs →
          ∃ i ∈ images, i.is_stored_at__image_location = svc.image)) →
      ∃ out, buildReleaseInstalls images appReleases a rlist = .ok out := by
  intro rlist
  induction rlist with
  | nil => intro _; exact ⟨[], rfl⟩
  | cons q rest ih =>
    obtain ⟨ru, re⟩ := q
    intro h
    obtain ⟨⟨r, hr, hcom⟩, himg⟩ := h ru re (List.mem_cons_self _ _)
    obtain ⟨rel, hrel⟩ := exists_find?_eq_some
      (p := fun r => decide (r.commit = ru)) ⟨r, hr, by simp [hcom]⟩
    have hsvc : ∀ n svc, (n, svc) ∈ re.services.getD [] →
        ∃ i ∈ images, i.is_stored_at__image_location = svc.image := by
      intro n svc hm
      cases hsv : re.services with
      | none =>
        rw [hsv] at hm
        simp at hm
      | some svcs =>
        rw [hsv] at hm
        exact himg svcs hsv n svc hm
    obtain ⟨here, hhere⟩ := @buildServiceInstalls_ok _ rel.id _ hsvc
    obtain ⟨tail, htail⟩ := ih (fun ru2 re2 hm => h ru2 re2 (List.mem_cons_of_mem _ hm))
    refine ⟨here ++ tail, ?_⟩
    simp only [buildReleaseInstalls, hars, hrel, hhere, htail]

theorem buildAppInstalls_ok {images : List ImageRow}
    {appReleases : List (String × List ReleaseRow)} :
    ∀ {apps : List (String × AppEntry)},
      (∀ a ae, (a, ae) ∈ apps → ∃ rels, alookup appReleases a = some rels ∧
        ∀ ru re, (ru, re) ∈ ae.releases.getD [] → (∃ r ∈ rels, r.commit = ru) ∧
          (∀ svcs, re.services = some svcs → ∀ n svc, (n, svc) ∈ svcs →
            ∃ i ∈ images, i.is_stored_at__image_location = svc.image)) →
      ∃ out, buildAppInstalls images appReleases apps = .ok out := by
  intro apps
  induction apps with
  | nil => intro _; exact ⟨[], rfl⟩
  | cons q rest ih =>
    obtain ⟨a, ae⟩ := q
    intro h
    obtain ⟨rels, hars, hfacts⟩ := h a ae (List.mem_cons_self _ _)
    obtain ⟨here, hhere⟩ := buildReleaseInstalls_ok hars hfacts
    obtain ⟨tail, htail⟩ := ih (fun a2 ae2 hm => h a2 ae2 (List.mem_cons_of_mem _ hm))
    refine ⟨here ++ tail, ?_⟩
    simp only [buildAppInstalls]
    rw [hhere, htail]

theorem processEntry_ne_internal {resolved : Resolved} {installs : List ImageInstallRow}
    {u : String} {entry : DeviceEntry}
    (happ : ∀ apps, entry.apps = some apps →
      ∃ out, buildAppInstalls resolved.images resolved.appReleases apps = .ok out) :
    processEntry resolved installs u entry ≠ .error .internal := by
  intro h
  unfold processEntry at h
  split at h
  · injection h with h
    exact Err.noConfusion h
  · split at h
    · next e2 heq =>
      injection h with h
      rw [buildDeviceBody_error heq] at h
      exact Err.noConfusion h
    · split at h
      · exact Except.noConfusion h
      · next apps heqa =>
        split at h
        · next e2 heq =>
          obtain ⟨out, hout⟩ := happ apps heqa
          rw [hout] at heq
          exact Except.noConfusion heq
        · exact Except.noConfusion h

theorem processEntries_ne_internal {resolved : Resolved} {installs : List ImageInstallRow} :
    ∀ {l : List (String × DeviceEntry)},
      (∀ u entry, (u, entry) ∈ l → ∀ apps, entry.apps = some apps →
        ∃ out, buildAppInstalls resolved.images resolved.appReleases apps = .ok out) →
      processEntries resolved installs l ≠ .error .internal := by
  intro l
  induction l with
  | nil => intro _ h; exact Except.noConfusion h
  | cons q rest ih =>
    obtain ⟨u, entry⟩ := q
    intro hfacts h
    simp only [processEntries] at h
    split at h
    · next e2 heq =>
      injection h with h
      rw [h] at heq
      exact processEntry_ne_internal
        (fun apps ha => hfacts u entry (List.mem_cons_self _ _) apps ha) heq
    · split at h
      · next e2 heq =>
        injection h with h
        rw [h] at heq
        exact ih (fun u2 e2 hm => hfacts u2 e2 (List.mem_cons_of_mem _ hm)) heq
      · exact Except.noConfusion h

/-! Lemmas about field updates and the device patch. -/

theorem alookup_setField_self (f : List (String × Value)) (k : String) (v : Value) :
    alookup (setField f k v) k = some v := by
  induction f with
  | nil => simp [setField, alookup]
  | cons p rest ih =>
    by_cases hp : p.1 = k
    · simp [setField, hp, alookup]
    · simp [setField, hp, alookup, ih]

theorem alookup_setField_ne (f : List (String × Value)) (k k' : String) (v : Value)
    (h : k ≠ k') : alookup (setField f k v) k' = alookup f k' := by
  induction f with
  | nil => simp [setField, alookup, h]
  | cons p rest ih =>
    by_cases hp : p.1 = k
    · simp [setField, hp, alookup, h, hp ▸ h]
    · simp [setField, hp, alookup, ih]

theorem applyFields_cons (f : List (String × Value)) (kv : String × Value)
    (rest : List (String × Value)) :
    applyFields f (kv :: rest) = applyFields (setField f kv.1 kv.2) rest := rfl

theorem alookup_applyFields_not_mem :
    ∀ (b : List (String × Value)) (f : List (String × Value)) (k : String),
      k ∉ b.map Prod.fst → alookup (applyFields f b) k = alookup f k
  | [], _, _, _ => rfl
  | kv :: rest, f, k, h => by
    have hk : kv.1 ≠ k := by
      intro hc
      exact h (by rw [List.map_cons, hc]; exact List.mem_cons_self k _)
    have hrest : k ∉ rest.map Prod.fst := by
      intro hc
      exact h (by rw [List.map_cons]; exact List.mem_cons_of_mem _ hc)
    rw [applyFields_cons, alookup_applyFields_not_mem rest _ k hrest,
      alookup_setField_ne _ _ _ _ hk]

theorem alookup_applyFields_mem :
    ∀ (b : List (String × Value)) (f : List (String × Value)),
      (b.map Prod.fst).Nodup →
      ∀ k v, (k, v) ∈ b → alookup (applyFields f b) k = some v
  | [], _, _, _, _, hm => absurd hm (List.not_mem_nil _)
  | kv :: rest, f, hnd, k, v, hm => by
    have hnd2 : kv.1 ∉ rest.map Prod.fst ∧ (rest.map Prod.fst).Nodup := by
      rw [List.map_cons, List.nodup_cons] at hnd
      exact hnd
    rcases List.mem_cons.mp hm with heq | hmt
    · have h1 : kv.1 = k := (congrArg Prod.fst heq).symm
      have h2 : kv.2 = v := (congrArg Prod.snd heq).symm
      rw [applyFields_cons, alookup_applyFields_not_mem rest _ k (h1 ▸ hnd2.1), h1, h2,
        alookup_setField_self]
    · exact alookup_applyFields_mem rest (setField f kv.1 kv.2) hnd2.2 k v hmt

theorem matchesBody_applyFields (d : DeviceRow) (b : List (String × Value))
    (hnd : (b.map Prod.fst).Nodup) :
    matchesBody { d with fields := applyFields d.fields b } b = true := by
  unfold matchesBody
  rw [List.all_eq_true]
  intro kv hm
  simp only [decide_eq_true_eq]
  exact alookup_applyFields_mem b d.fields hnd kv.1 kv.2 hm

theorem applyDevicePatch_of_matches {devices : List DeviceRow} {deviceId : Nat}
    {b : List (String × Value)}
    (h : ∀ d ∈ devices, d.id = deviceId → matchesBody d b = true) :
    applyDevicePatch devices deviceId b = devices := by
  unfold applyDevicePatch
  have hmap : devices.map (fun d =>
      if decide (d.id = deviceId) && !(matchesBody d b) then
        { d with fields := applyFields d.fields b }
      else d) = devices.map id := by
    apply List.map_congr_left
    intro d hd
    by_cases hid : d.id = deviceId
    · rw [h d hd hid]
      simp
    · simp [hid]
  rw [hmap, List.map_id]

theorem devicePatchAffected_nil_of_matches {devices : List DeviceRow} {deviceId : Nat}
    {b : List (String × Value)}
    (h : ∀ d ∈ devices, d.id = deviceId → matchesBody d b = true) :
    devicePatchAffected devices deviceId b = [] := by
  unfold devicePatchAffected
  have hfil : devices.filter (fun d => decide (d.id = deviceId) && !(matchesBody d b)) = [] := by
    rw [List.filter_eq_nil_iff]
    intro d hd
    by_cases hid : d.id = deviceId
    · rw [h d hd hid]
      simp
    · simp [hid]
  rw [hfil]
  rfl

theorem applyDevicePatch_then_matches {devices : List DeviceRow} {deviceId : Nat}
    {b : List (String × Value)} (hnd : (b.map Prod.fst).Nodup) :
    ∀ d2 ∈ applyDevicePatch devices deviceId b, d2.id = deviceId →
      matchesBody d2 b = true := by
  intro d2 hd2 hid
  unfold applyDevicePatch at hd2
  rw [List.mem_map] at hd2
  obtain ⟨d, _, heq⟩ := hd2
  by_cases hc : (decide (d.id = deviceId) && !(matchesBody d b)) = true
  · rw [if_pos hc] at heq
    rw [← heq]
    exact matchesBody_applyFields d b hnd
  · rw [if_neg hc] at heq
    subst heq
    cases hm : matchesBody d b
    · exfalso
      apply hc
      rw [hm]
      simp [hid]
    · rfl

/-! Lemmas about the image install differ. -/

theorem keyByImageLookup_eq_find? {rows : List ImageInstallRow} {img : Nat}
    (hnd : (rows.map (·.installs__image)).Nodup) :
    keyByImageLookup rows img = rows.find? (fun ii => decide (ii.installs__image = img)) :=
  reverse_find?_of_nodup_key (fun ii : ImageInstallRow => ii.installs__image) img rows hnd

theorem deviceUpsertInstrs_eq_find? {installs : List ImageInstallRow} {deviceId : Nat}
    {cands : List ImgInstall}
    (hE : ((installs.filter (fun ii => decide (ii.device = deviceId))).map
      (·.installs__image)).Nodup) :
    deviceUpsertInstrs installs deviceId cands =
      cands.map (fun c =>
        upsertImageInstall
          ((installs.filter (fun ii => decide (ii.device = deviceId))).find?
            (fun e => decide (e.installs__image = c.imageId))) c deviceId) := by
  unfold deviceUpsertInstrs
  apply List.map_congr_left
  intro c hc
  have hexist : installs.filter
      (fun ii => decide (ii.device = deviceId)
        && decide (ii.installs__image ∈ cands.map (·.imageId)))
      = (installs.filter (fun ii => decide (ii.device = deviceId))).filter
          (fun ii => decide (ii.installs__image ∈ cands.map (·.imageId))) := by
    rw [List.filter_filter]
    apply List.filter_congr
    intro ii _
    rw [Bool.and_comm]
  rw [hexist]
  have hnd2 : (((installs.filter (fun ii => decide (ii.device = deviceId))).filter
      (fun ii => decide (ii.installs__image ∈ cands.map (·.imageId)))).map
      (·.installs__image)).Nodup := filter_map_key_nodup _ _ _ hE
  rw [keyByImageLookup_eq_find? hnd2]
  rw [find?_filter_of_imp _ _ ?_ _]
  intro e he
  simp only [decide_eq_true_eq] at he ⊢
  rw [he]
  exact List.mem_map_of_mem (fun c => c.imageId) hc

/-! Lemmas about the shape of the device patch body. -/

theorem filter_keys_valid {fields : List (String × Value)} {k : String}
    (h : k ∈ (fields.filter (fun kv => decide (kv.1 ∈ validPatchFields))).map Prod.fst) :
    k ∈ validPatchFields := by
  rw [List.mem_map] at h
  obtain ⟨kv, hkv, hk⟩ := h
  have := (List.mem_filter.mp hkv).2
  rw [← hk]
  simpa using this

theorem baseBody_keys {entry : DeviceEntry} :
    ∀ k ∈ (baseBody entry).map Prod.fst, k ∈ validPatchFields ∨ k = "device_name" := by
  intro k hk
  unfold baseBody at hk
  split at hk
  · next v _ =>
    split at hk
    · rw [List.map_append] at hk
      rcases List.mem_append.mp hk with h1 | h2
      · exact Or.inl (filter_keys_valid h1)
      · exact Or.inr (by simpa using h2)
    · exact Or.inl (filter_keys_valid hk)
  · exact Or.inl (filter_keys_valid hk)

theorem baseBody_keys_nodup {entry : DeviceEntry}
    (hf : (entry.fields.map Prod.fst).Nodup) :
    ((baseBody entry).map Prod.fst).Nodup := by
  have hb0 : ((entry.fields.filter
      (fun kv => decide (kv.1 ∈ validPatchFields))).map Prod.fst).Nodup :=
    filter_map_key_nodup _ _ _ hf
  unfold baseBody
  split
  · next v _ =>
    split
    · rw [List.map_append, List.nodup_append]
      refine ⟨hb0, by simp, ?_⟩
      intro k hk1 hk2
      have hv := filter_keys_valid hk1
      have : k = "device_name" := by simpa using hk2
      rw [this] at hv
      exact absurd hv (by decide)
    · exact hb0
  · exact hb0

theorem run_release_not_in_baseBody (entry : DeviceEntry) :
    "is_running__release" ∉ (baseBody entry).map Prod.fst := by
  intro h
  rcases baseBody_keys _ h with h1 | h2
  · exact absurd h1 (by decide)
  · exact absurd h2 (by decide)

theorem buildDeviceBody_shape {entry : DeviceEntry} {device : DeviceRow}
    {appReleases : List (String × List ReleaseRow)} {b : List (String × Value)}
    (h : buildDeviceBody entry device appReleases = .ok b) :
    b = baseBody entry
      ∨ ∃ release : ReleaseRow,
          b = baseBody entry ++ [("is_running__release", Value.num release.id)] := by
  unfold buildDeviceBody at h
  split at h
  · exact Or.inl (Except.ok.inj h).symm
  · split at h
    · exact Except.noConfusion h
    · split at h
      · exact Or.inl (Except.ok.inj h).symm
      · split at h
        · exact Except.noConfusion h
        · split at h
          · next release _ =>
            exact Or.inr ⟨release, (Except.ok.inj h).symm⟩
          · exact Or.inl (Except.ok.inj h).symm

theorem buildDeviceBody_keys {entry : DeviceEntry} {device : DeviceRow}
    {appReleases : List (String × List ReleaseRow)} {b : List (String × Value)}
    (h : buildDeviceBody entry device appReleases = .ok b) :
    ∀ k ∈ b.map Prod.fst,
      k ∈ validPatchFields ∨ k = "device_name" ∨ k = "is_running__release" := by
  intro k hk
  rcases buildDeviceBody_shape h with hb | ⟨release, hb⟩
  · subst hb
    rcases baseBody_keys k hk with h1 | h2
    · exact Or.inl h1
    · exact Or.inr (Or.inl h2)
  · subst hb
    rw [List.map_append] at hk
    rcases List.mem_append.mp hk with h1 | h2
    · rcases baseBody_keys k h1 with h3 | h4
      · exact Or.inl h3
      · exact Or.inr (Or.inl h4)
    · exact Or.inr (Or.inr (by simpa using h2))

theorem buildDeviceBody_keys_nodup {entry : DeviceEntry} {device : DeviceRow}
    {appReleases : List (String × List ReleaseRow)} {b : List (String × Value)}
    (hf : (entry.fields.map Prod.fst).Nodup)
    (h : buildDeviceBody entry device appReleases = .ok b) :
    (b.map Prod.fst).Nodup := by
  rcases buildDeviceBody_shape h with hb | ⟨release, hb⟩
  · subst hb
    exact baseBody_keys_nodup hf
  · subst hb
    rw [List.map_append, List.nodup_append]
    refine ⟨baseBody_keys_nodup hf, by simp, ?_⟩
    intro k hk1 hk2
    have hne : k = "is_running__release" := by simpa using hk2
    rw [hne] at hk1
    exact run_release_not_in_baseBody entry hk1

/-! Lemmas at the level of the whole handler. -/

theorem statePatchV3_of_run_error {body : Body} {store : Store} {e : Err}
    (h : runStatePatchV3 body store = .error e) :
    statePatchV3 body store = (store, respOf e) := by
  unfold statePatchV3
  rw [h]

theorem statePatchV3_of_run_ok {body : Body} {store : Store} {s : Store}
    (h : runStatePatchV3 body store = .ok s) :
    statePatchV3 body store = (s, .ok200) := by
  unfold statePatchV3
  rw [h]

theorem resolveReleases_app_scoped {store : Store} :
    ∀ {l : List (String × List String)} {out : List (String × List ReleaseRow)},
      resolveReleases store l = .ok out →
      ∀ p ∈ out, ∀ r ∈ p.2, r.belongs_to__application = p.1 := by
  intro l
  induction l with
  | nil =>
    intro out h p hp
    rw [← Except.ok.inj h] at hp
    cases hp
  | cons q rest ih =>
    obtain ⟨a0, rus0⟩ := q
    intro out h p hp
    simp only [resolveReleases] at h
    split at h
    · exact Except.noConfusion h
    · split at h
      · exact Except.noConfusion h
      · next tail heq =>
        rw [← Except.ok.inj h] at hp
        rcases List.mem_cons.mp hp with hhead | htail
        · subst hhead
          intro r hr
          exact releasesFor_app hr
        · exact ih heq p htail

theorem runStatePatchV3_badRequest_iff (body : Body) (store : Store) :
    runStatePatchV3 body store = .error .badRequest ↔ entriesOf body = [] := by
  constructor
  · intro h
    by_contra hne
    have hempty : (entriesOf body).isEmpty = false := by
      cases hent : entriesOf body
      · exact absurd hent hne
      · rfl
    unfold runStatePatchV3 at h
    rw [if_neg (by simp [hempty])] at h
    cases hr : readPhase body store with
    | error e =>
      simp only [hr] at h
      injection h with h
      have := readPhase_error hr
      rw [this] at h
      exact Err.noConfusion h
    | ok resolved =>
      simp only [hr] at h
      cases hp : processEntries resolved store.installs (entriesOf body) with
      | error e =>
        simp only [hp] at h
        injection h with h
        exact processEntries_error hp h
      | ok eis =>
        simp only [hp] at h
        exact Except.noConfusion h
  · intro h
    unfold runStatePatchV3
    rw [if_pos (by simp [h])]

/-- C1: Authorization completeness and atomicity of rejection.  For a
well-formed store, whenever the batch references a device uuid with no
caller-visible device row, an image location with no caller-visible image row,
or a release commit with no release of the claimed application, the whole
batch is answered with the unauthorized response and the store is returned
unchanged: the failed count check of the read-only phase raises before the
write transaction is ever entered. -/
theorem statePatchV3_rejects_unresolved (body : Body) (store : Store)
    (hwf : WellFormedStore store) (hun : UnresolvedRef body store) :
    statePatchV3 body store = (store, Response.unauthorized401) := by
  have hne : (entriesOf body).isEmpty = false := by
    cases hent : entriesOf body
    · exact absurd hent (unresolved_entries_ne_nil hun)
    · rfl
  have hread := readPhase_fails hwf hun
  have hrun : runStatePatchV3 body store = .error .unauthorized := by
    unfold runStatePatchV3
    rw [if_neg (by simp [hne])]
    simp only [hread]
  rw [statePatchV3_of_run_error hrun]
  rfl

/-- Witness for C1 at a concrete input: a body naming device uuid d1 against
an empty store is rejected as unauthorized with the store unchanged. -/
theorem statePatchV3_rejects_unresolved_witness :
    (WellFormedStore {} ∧ UnresolvedRef [("d1", some {})] {})
      ∧ statePatchV3 [("d1", some {})] {} = ({}, Response.unauthorized401) := by
  have hwf : WellFormedStore ({} : Store) := by
    refine ⟨?_, ?_, ?_⟩ <;> simp [Store.devices, Store.images, Store.releases]
  have hun : UnresolvedRef [("d1", some {})] {} :=
    Or.inl ⟨"d1", by decide, by intro d hd; cases hd⟩
  exact ⟨⟨hwf, hun⟩, statePatchV3_rejects_unresolved _ _ hwf hun⟩

/-- C8: statePatchV3 fails with the malformed-request response exactly when
the set of device uuids with non-null entries of the request body is empty;
any batch with at least one non-null entry gets past this check and never
produces the malformed-request response later. -/
theorem statePatchV3_badRequest_iff (body : Body) (store : Store) :
    (statePatchV3 body store).2 = Response.badRequest400 ↔ uuidsOf body = [] := by
  constructor
  · intro h
    cases hr : runStatePatchV3 body store with
    | ok s =>
      rw [statePatchV3_of_run_ok hr] at h
      exact Response.noConfusion h
    | error e =>
      rw [statePatchV3_of_run_error hr] at h
      have he : e = .badRequest := by
        cases e
        · rfl
        · exact Response.noConfusion h
        · exact Response.noConfusion h
        · exact Response.noConfusion h
      rw [he] at hr
      have hent := (runStatePatchV3_badRequest_iff body store).mp hr
      rw [uuidsOf, hent]
      rfl
  · intro h
    have hent : entriesOf body = [] := List.map_eq_nil_iff.mp h
    have hrun := (runStatePatchV3_badRequest_iff body store).mpr hent
    rw [statePatchV3_of_run_error hrun]
    rfl

/-- C5: Internal-fault unreachability.  For a well-formed store, once the
read-only phase has passed all its count checks, the InternalRequestError
branches of the write phase (release commit not found among the resolved
releases of its application, or service image location not found among the
resolved images) are unreachable: the handler never fails with the internal
request error. -/
theorem statePatchV3_internal_unreachable (body : Body) (store : Store)
    (resolved : Resolved) (hwf : WellFormedStore store)
    (hread : readPhase body store = .ok resolved) :
    runStatePatchV3 body store ≠ .error .internal := by
  obtain ⟨hwd, hwi, hwr⟩ := hwf
  obtain ⟨hdev, himg, hrel⟩ := readPhase_ok_parts hread
  intro h
  unfold runStatePatchV3 at h
  split at h
  · injection h with h
    exact Err.noConfusion h
  · simp only [hread] at h
    cases hp : processEntries resolved store.installs (entriesOf body) with
    | ok eis =>
      simp only [hp] at h
      exact Except.noConfusion h
    | error e =>
      simp only [hp] at h
      injection h with h
      rw [h] at hp
      revert hp
      apply processEntries_ne_internal
      intro u entry hmem apps happ
      apply buildAppInstalls_ok
      intro a ae hae
      obtain ⟨rus, hlook⟩ := collectRefs_app_present hmem happ hae
      have hmemref : (a, rus) ∈ (collectRefs body).1 := alookup_mem hlook
      obtain ⟨rels, hrels, honto⟩ :=
        resolveReleases_covers hwr (collectRefs_keys_nodup body) hrel hmemref
      refine ⟨rels, hrels, ?_⟩
      intro ru re hmr
      cases hrelo : ae.releases with
      | none =>
        rw [hrelo] at hmr
        simp at hmr
      | some rlist =>
        rw [hrelo] at hmr
        have hmr2 : (ru, re) ∈ rlist := by simpa using hmr
        constructor
        · obtain ⟨rus2, hlook2, hmemru⟩ :=
            collectRefs_commit_mem hmem happ hae hrelo hmr2
          rw [hlook] at hlook2
          have hru2 : rus2 = rus := (Option.some.inj hlook2).symm
          exact honto ru (hru2 ▸ hmemru)
        · intro svcs hsv n svc hms
          have himgmem := collectRefs_img_mem hmem happ hae hrelo hmr2 hsv hms
          exact resolveImages_covers hwi himg svc.image himgmem

/-- Witness for C5 at a concrete input: a single-device body with no apps
object passes the read phase against a store holding that device, and the run
does not fail with the internal request error. -/
theorem statePatchV3_internal_unreachable_witness :
    (WellFormedStore
        { devices := [{ id := 1, uuid := "d1", belongs_to__application := "a1" }] }
      ∧ readPhase [("d1", some {})]
          { devices := [{ id := 1, uuid := "d1", belongs_to__application := "a1" }] }
        = .ok ⟨[{ id := 1, uuid := "d1", belongs_to__application := "a1" }], [], []⟩)
      ∧ runStatePatchV3 [("d1", some {})]
          { devices := [{ id := 1, uuid := "d1", belongs_to__application := "a1" }] }
        ≠ .error .internal := by
  refine ⟨⟨?_, ?_⟩, ?_⟩
  · refine ⟨?_, ?_, ?_⟩ <;> simp [Store.devices, Store.images, Store.releases]
  · rfl
  · exact statePatchV3_internal_unreachable _ _
      ⟨[{ id := 1, uuid := "d1", belongs_to__application := "a1" }], [], []⟩
      ⟨by simp [Store.devices], by simp [Store.images], by simp [Store.releases]⟩ rfl

theorem imagesFor_length_of_all {store : Store} {locs : List String}
    (hw : (store.images.map (·.is_stored_at__image_location)).Nodup)
    (hnd : locs.Nodup)
    (hex : ∀ loc ∈ locs, ∃ i ∈ store.images, i.is_stored_at__image_location = loc) :
    (imagesFor store locs).length = locs.length := by
  have hsub : ((imagesFor store locs).map (·.is_stored_at__image_location)).toFinset
      = locs.toFinset := by
    apply Finset.Subset.antisymm
    · intro x hx
      rw [List.mem_toFinset, List.mem_map] at hx
      obtain ⟨i, hi, hloc⟩ := hx
      rw [← hloc]
      exact List.mem_toFinset.mpr (imagesFor_key hi)
    · intro x hx
      rw [List.mem_toFinset] at hx
      obtain ⟨i, hi, hloc⟩ := hex x hx
      rw [List.mem_toFinset, List.mem_map]
      refine ⟨i, ?_, hloc⟩
      unfold imagesFor
      rw [List.mem_filter]
      exact ⟨hi, by simp [hloc, hx]⟩
  calc (imagesFor store locs).length
      = ((imagesFor store locs).map (·.is_stored_at__image_location)).length :=
        (List.length_map _ _).symm
    _ = ((imagesFor store locs).map (·.is_stored_at__image_location)).toFinset.card :=
        (List.toFinset_card_of_nodup (imagesFor_key_nodup _ _ hw)).symm
    _ = locs.toFinset.card := by rw [hsub]
    _ = locs.length := List.toFinset_card_of_nodup hnd

/-- C4 counterexample: a batch whose two services both reference the existing
image location loc1, against a store where device, release and image all
resolve; the claim predicts that the image check does not reject the batch,
but the handler answers unauthorized (with the store unchanged), because the
location list is collected with multiplicity and the count check compares two
references against the single matching row. -/
theorem image_location_multiset_cex :
    (∀ loc ∈ (collectRefs
        [("d1", some
          { fields := []
          , apps := some
              [("a1",
                { release_uuid := none
                , releases := some
                    [("r1",
                      { services := some
                          [ ("s1", { image := "loc1", status := "Running" })
                          , ("s2", { image := "loc1", status := "Running" })] })] })] })]).2,
        ∃ i ∈ [({ id := 9, is_stored_at__image_location := "loc1" } : ImageRow)],
          i.is_stored_at__image_location = loc)
    ∧ (∀ u ∈ uuidsOf
        [("d1", some
          { fields := []
          , apps := some
              [("a1",
                { release_uuid := none
                , releases := some
                    [("r1",
                      { services := some
                          [ ("s1", { image := "loc1", status := "Running" })
                          , ("s2", { image := "loc1", status := "Running" })] })] })] })],
        ∃ d ∈ [({ id := 1, uuid := "d1", belongs_to__application := "a1" } : DeviceRow)],
          d.uuid = u)
    ∧ (∀ p ∈ (collectRefs
        [("d1", some
          { fields := []
          , apps := some
              [("a1",
                { release_uuid := none
                , releases := some
                    [("r1",
                      { services := some
                          [ ("s1", { image := "loc1", status := "Running" })
                          , ("s2", { image := "loc1", status := "Running" })] })] })] })]).1,
        ∀ ru ∈ p.2,
          ∃ r ∈ [({ id := 5, commit := "r1", belongs_to__application := "a1" } : ReleaseRow)],
            r.commit = ru ∧ r.belongs_to__application = p.1)
    ∧ statePatchV3
        [("d1", some
          { fields := []
          , apps := some
              [("a1",
                { release_uuid := none
                , releases := some
                    [("r1",
                      { services := some
                          [ ("s1", { image := "loc1", status := "Running" })
                          , ("s2", { image := "loc1", status := "Running" })] })] })] })]
        { devices := [{ id := 1, uuid := "d1", belongs_to__application := "a1" }]
        , images := [{ id := 9, is_stored_at__image_location := "loc1" }]
        , releases := [{ id := 5, commit := "r1", belongs_to__application := "a1" }] }
      = ({ devices := [{ id := 1, uuid := "d1", belongs_to__application := "a1" }]
         , images := [{ id := 9, is_stored_at__image_location := "loc1" }]
         , releases := [{ id := 5, commit := "r1", belongs_to__application := "a1" }] },
         Response.unauthorized401) := by
  exact ⟨by decide, by decide, by decide, by rfl⟩

/-- C4 (amended): the normalizer collects the referenced image locations of
the whole batch as one list, with multiplicity, for one batched existence
check; the count-mismatch rejection therefore does not fire exactly on the
batches whose reference list is pairwise distinct and fully resolvable
against unique image rows — for those the check passes with the matched rows;
a batch that references the same existing location more than once is
rejected (see the counterexample). -/
theorem image_check_amended (body : Body) (store : Store)
    (hw : (store.images.map (·.is_stored_at__image_location)).Nodup)
    (hnd : (collectRefs body).2.Nodup)
    (hex : ∀ loc ∈ (collectRefs body).2,
      ∃ i ∈ store.images, i.is_stored_at__image_location = loc) :
    resolveImages store (collectRefs body).2 = .ok (imagesFor store (collectRefs body).2) := by
  unfold resolveImages
  by_cases he : (collectRefs body).2.isEmpty = true
  · rw [if_pos he]
    have hnil : (collectRefs body).2 = [] := List.isEmpty_iff.mp he
    rw [hnil]
    unfold imagesFor
    simp
  · rw [if_neg he]
    have hlen := imagesFor_length_of_all hw hnd hex
    rw [if_neg (by omega)]

/-- Witness for the amended C4 at a concrete input: one service referencing
the one existing location; the image check passes and resolves the row. -/
theorem image_check_amended_witness :
    (((({ images := [{ id := 9, is_stored_at__image_location := "loc1" }] } : Store)).images.map
        (·.is_stored_at__image_location)).Nodup
      ∧ (collectRefs
          [("d1", some
            { fields := []
            , apps := some
                [("a1",
                  { release_uuid := none
                  , releases := some
                      [("r1",
                        { services := some
                            [("s1", { image := "loc1", status := "Running" })] })] })] })]).2.Nodup)
    ∧ resolveImages { images := [{ id := 9, is_stored_at__image_location := "loc1" }] }
        (collectRefs
          [("d1", some
            { fields := []
            , apps := some
                [("a1",
                  { release_uuid := none
                  , releases := some
                      [("r1",
                        { services := some
                            [("s1", { image := "loc1", status := "Running" })] })] })] })]).2
      = .ok (imagesFor { images := [{ id := 9, is_stored_at__image_location := "loc1" }] }
          (collectRefs
            [("d1", some
              { fields := []
              , apps := some
                  [("a1",
                    { release_uuid := none
                    , releases := some
                        [("r1",
                          { services := some
                              [("s1", { image := "loc1", status := "Running" })] })] })] })]).2) := by
  refine ⟨⟨by decide, by decide⟩, ?_⟩
  exact image_check_amended _ _ (by decide) (by decide) (by decide)

/-- C3 counterexample: device d1 owns application a1 and reports an apps
object holding only the foreign application a2 with a commit that resolves
under a2; the read phase passes, yet instead of silently omitting the
running-release patch and continuing, the handler crashes on the missing
own-application member (a TypeError) and answers the whole batch with a
plain 500 server error. -/
theorem running_release_hard_failure_cex :
    readPhase
        [("d1", some
          { fields := []
          , apps := some [("a2", { release_uuid := some "r2" })] })]
        { devices := [{ id := 1, uuid := "d1", belongs_to__application := "a1" }]
        , releases := [{ id := 7, commit := "r2", belongs_to__application := "a2" }] }
      = .ok ⟨[{ id := 1, uuid := "d1", belongs_to__application := "a1" }], [],
          [("a2", [{ id := 7, commit := "r2", belongs_to__application := "a2" }])]⟩
    ∧ statePatchV3
        [("d1", some
          { fields := []
          , apps := some [("a2", { release_uuid := some "r2" })] })]
        { devices := [{ id := 1, uuid := "d1", belongs_to__application := "a1" }]
        , releases := [{ id := 7, commit := "r2", belongs_to__application := "a2" }] }
      = ({ devices := [{ id := 1, uuid := "d1", belongs_to__application := "a1" }]
         , releases := [{ id := 7, commit := "r2", belongs_to__application := "a2" }] },
         Response.serverError500) := by
  exact ⟨by rfl, by rfl⟩

/-- C3 (amended): for every device entry whose apps object contains a member
for the owning application of the device (and given the resolved release map
holds a list for that application, which the collection pass guarantees), the
device patch gains is_running__release with the id of the release found for
the claimed release_uuid among the releases resolved for that application,
exactly when the lookup finds one; otherwise the patch omits the key and the
entry is processed without any hard failure.  Every release list produced by
the resolver belongs to the application it is keyed under, so a release of a
foreign application is never accepted.  When the apps object lacks the
owning application, the handler may instead crash (see the counterexample). -/
theorem running_release_rule_amended (entry : DeviceEntry) (device : DeviceRow)
    (ars : List (String × List ReleaseRow)) (apps : List (String × AppEntry))
    (appEntry : AppEntry) (rels : List ReleaseRow)
    (happ : entry.apps = some apps)
    (hkey : alookup apps device.belongs_to__application = some appEntry)
    (hres : alookup ars device.belongs_to__application = some rels) :
    (∃ b, buildDeviceBody entry device ars = .ok b
      ∧ (∀ r, rels.find? (fun r => decide (appEntry.release_uuid = some r.commit)) = some r →
          ("is_running__release", Value.num r.id) ∈ b)
      ∧ (rels.find? (fun r => decide (appEntry.release_uuid = some r.commit)) = none →
          "is_running__release" ∉ b.map Prod.fst))
    ∧ (∀ (store : Store) (l : List (String × List String))
          (out : List (String × List ReleaseRow)),
        resolveReleases store l = .ok out →
        ∀ p ∈ out, ∀ r ∈ p.2, r.belongs_to__application = p.1) := by
  constructor
  · cases rels with
    | nil =>
      refine ⟨baseBody entry, ?_, ?_, ?_⟩
      · simp only [buildDeviceBody, happ, hres]
      · intro r hrr
        exact Option.noConfusion hrr
      · intro _
        exact run_release_not_in_baseBody entry
    | cons r0 rtail =>
      cases hf : (r0 :: rtail).find?
          (fun r => decide (appEntry.release_uuid = some r.commit)) with
      | some release =>
        refine ⟨baseBody entry ++ [("is_running__release", Value.num release.id)], ?_, ?_, ?_⟩
        · simp only [buildDeviceBody, happ, hres, hkey, hf]
        · intro r hrr
          have hrel : release = r := Option.some.inj hrr
          rw [← hrel]
          exact List.mem_append_right _ (by simp)
        · intro hnone
          exact Option.noConfusion hnone
      | none =>
        refine ⟨baseBody entry, ?_, ?_, ?_⟩
        · simp only [buildDeviceBody, happ, hres, hkey, hf]
        · intro r hrr
          exact Option.noConfusion hrr
        · intro _
          exact run_release_not_in_baseBody entry
  · intro store l out h p hp
    exact resolveReleases_app_scoped h p hp

/-- Witness for the amended C3 at a concrete input: the own application a1
claims commit r1 which resolves to release id 5; the patch body gains the
running release key with value 5. -/
theorem running_release_rule_amended_witness :
    ((({ fields := [], apps := some [("a1", { release_uuid := some "r1" })] } :
          DeviceEntry).apps = some [("a1", { release_uuid := some "r1" })])
      ∧ alookup [("a1", ({ release_uuid := some "r1" } : AppEntry))] "a1"
          = some { release_uuid := some "r1" }
      ∧ alookup [("a1", [({ id := 5, commit := "r1", belongs_to__application := "a1" } :
          ReleaseRow)])] "a1"
          = some [{ id := 5, commit := "r1", belongs_to__application := "a1" }])
    ∧ ((∃ b, buildDeviceBody
          { fields := [], apps := some [("a1", { release_uuid := some "r1" })] }
          { id := 1, uuid := "d1", belongs_to__application := "a1" }
          [("a1", [{ id := 5, commit := "r1", belongs_to__application := "a1" }])] = .ok b
        ∧ (∀ r, [({ id := 5, commit := "r1", belongs_to__application := "a1" } :
              ReleaseRow)].find?
            (fun r => decide ((({ release_uuid := some "r1" } : AppEntry)).release_uuid
              = some r.commit)) = some r →
            ("is_running__release", Value.num r.id) ∈ b)
        ∧ ([({ id := 5, commit := "r1", belongs_to__application := "a1" } :
              ReleaseRow)].find?
            (fun r => decide ((({ release_uuid := some "r1" } : AppEntry)).release_uuid
              = some r.commit)) = none →
            "is_running__release" ∉ b.map Prod.fst))
      ∧ (∀ (store : Store) (l : List (String × List String))
            (out : List (String × List ReleaseRow)),
          resolveReleases store l = .ok out →
          ∀ p ∈ out, ∀ r ∈ p.2, r.belongs_to__application = p.1)) := by
  refine ⟨⟨rfl, rfl, rfl⟩, ?_⟩
  exact running_release_rule_amended _ _ _ _ _ _ rfl rfl rfl

/-- C2: Differ correctness.  For a device whose persisted installs are unique
per image, the upsert pass (restricted fetch plus keyBy) turns every claimed
candidate into exactly the instruction determined by the full existing
install set E of the device: an insert when the image of the candidate has no row in E,
an update only when status, progress or release actually differ, and no write
otherwise.  The spec-modelled delete pass keeps exactly the rows that are not
(this device ∧ image inside the resolver's scope ∧ image not claimed), so
installs of other devices or of images outside the scope are untouched. -/
theorem image_install_differ_correct (installs : List ImageInstallRow) (deviceId : Nat)
    (cands : List ImgInstall) (scope imageIds : List Nat)
    (hE : ((installs.filter (fun ii => decide (ii.device = deviceId))).map
      (·.installs__image)).Nodup) :
    (deviceUpsertInstrs installs deviceId cands =
      cands.map (fun c =>
        upsertImageInstall
          ((installs.filter (fun ii => decide (ii.device = deviceId))).find?
            (fun e => decide (e.installs__image = c.imageId))) c deviceId))
    ∧ (∀ (c : ImgInstall) (e : ImageInstallRow),
        upsertImageInstall none c deviceId = .insert deviceId c
        ∧ (installDiffers e c = true → upsertImageInstall (some e) c deviceId = .update e.id c)
        ∧ (installDiffers e c = false → upsertImageInstall (some e) c deviceId = .noop))
    ∧ (∀ ii ∈ installs,
        ii ∈ deleteOldImageInstalls scope deviceId imageIds installs
          ↔ ¬(ii.device = deviceId ∧ ii.installs__image ∈ scope
              ∧ ii.installs__image ∉ imageIds)) := by
  refine ⟨deviceUpsertInstrs_eq_find? hE, ?_, ?_⟩
  · intro c e
    refine ⟨rfl, ?_, ?_⟩
    · intro hd
      simp [upsertImageInstall, hd]
    · intro hd
      simp [upsertImageInstall, hd]
  · intro ii hii
    unfold deleteOldImageInstalls
    rw [List.mem_filter]
    simp only [hii, true_and, Bool.not_eq_true', Bool.and_eq_false_iff,
      decide_eq_false_iff_not, not_and, not_not, decide_eq_true_eq]
    tauto

/-- Witness for C2 at a concrete input: device 5 owns an install of image 9;
the claim reports images 9 (changed status) and 10 (new); another device has
its own row for image 9. -/
theorem image_install_differ_correct_witness :
    ((([({ id := 1, device := 5, installs__image := 9, is_provided_by__release := 3, status := "Running" } : ImageInstallRow),
        { id := 2, device := 6, installs__image := 9, is_provided_by__release := 3, status := "Running" }].filter
          (fun ii => decide (ii.device = 5))).map (·.installs__image)).Nodup)
    ∧ ((deviceUpsertInstrs
          [{ id := 1, device := 5, installs__image := 9, is_provided_by__release := 3, status := "Running" },
           { id := 2, device := 6, installs__image := 9, is_provided_by__release := 3, status := "Running" }] 5
          [{ imageId := 9, releaseId := 3, status := "Downloaded" },
           { imageId := 10, releaseId := 3, status := "Downloading" }] =
        [({ imageId := 9, releaseId := 3, status := "Downloaded" } : ImgInstall),
         { imageId := 10, releaseId := 3, status := "Downloading" }].map (fun c =>
          upsertImageInstall
            (([({ id := 1, device := 5, installs__image := 9, is_provided_by__release := 3, status := "Running" } : ImageInstallRow),
               { id := 2, device := 6, installs__image := 9, is_provided_by__release := 3, status := "Running" }].filter
                (fun ii => decide (ii.device = 5))).find?
              (fun e => decide (e.installs__image = c.imageId))) c 5))
      ∧ (∀ (c : ImgInstall) (e : ImageInstallRow),
          upsertImageInstall none c 5 = .insert 5 c
          ∧ (installDiffers e c = true → upsertImageInstall (some e) c 5 = .update e.id c)
          ∧ (installDiffers e c = false → upsertImageInstall (some e) c 5 = .noop))
      ∧ (∀ ii ∈ [({ id := 1, device := 5, installs__image := 9, is_provided_by__release := 3, status := "Running" } : ImageInstallRow),
          { id := 2, device := 6, installs__image := 9, is_provided_by__release := 3, status := "Running" }],
          ii ∈ deleteOldImageInstalls [9, 10] 5 [9, 10]
            [{ id := 1, device := 5, installs__image := 9, is_provided_by__release := 3, status := "Running" },
             { id := 2, device := 6, installs__image := 9, is_provided_by__release := 3, status := "Running" }]
            ↔ ¬(ii.device = 5 ∧ ii.installs__image ∈ [9, 10]
                ∧ ii.installs__image ∉ [9, 10]))) := by
  refine ⟨by decide, ?_⟩
  exact image_install_differ_correct _ 5 _ [9, 10] [9, 10] (by decide)

/-- C6: Idempotence of field patches.  For an entry whose field object has
unique keys and whose patch body builds: an empty patch body issues no device
write instruction at all; when every row of the addressed id already matches
the body, the patch (filtered to rows not matching the body) changes nothing
and touches zero rows; and after one application the same patch touches zero
rows, so resubmitting the identical report issues zero field-patch writes. -/
theorem device_patch_idempotent (entry : DeviceEntry) (device : DeviceRow)
    (ars : List (String × List ReleaseRow)) (b : List (String × Value))
    (devices : List DeviceRow)
    (hf : (entry.fields.map Prod.fst).Nodup)
    (hb : buildDeviceBody entry device ars = .ok b) :
    (b = [] → devicePatchOf device.id b = none)
    ∧ ((∀ d ∈ devices, d.id = device.id → matchesBody d b = true) →
        applyDevicePatch devices device.id b = devices
          ∧ devicePatchAffected devices device.id b = [])
    ∧ devicePatchAffected (applyDevicePatch devices device.id b) device.id b = [] := by
  have hnd := buildDeviceBody_keys_nodup hf hb
  refine ⟨?_, ?_, ?_⟩
  · intro hbe
    subst hbe
    rfl
  · intro hmatch
    exact ⟨applyDevicePatch_of_matches hmatch, devicePatchAffected_nil_of_matches hmatch⟩
  · exact devicePatchAffected_nil_of_matches (applyDevicePatch_then_matches hnd)

/-- Witness for C6 at a concrete input: a status patch applied to a device
row; after one application the same patch touches zero rows. -/
theorem device_patch_idempotent_witness :
    (((({ fields := [("status", Value.str "Idle")] } : DeviceEntry)).fields.map
        Prod.fst).Nodup
      ∧ buildDeviceBody { fields := [("status", Value.str "Idle")] }
          { id := 1, uuid := "d1", belongs_to__application := "a1" } []
        = .ok [("status", Value.str "Idle")])
    ∧ (([("status", Value.str "Idle")] = ([] : List (String × Value)) →
          devicePatchOf 1 [("status", Value.str "Idle")] = none)
      ∧ ((∀ d ∈ [({ id := 1, uuid := "d1", belongs_to__application := "a1" } : DeviceRow)],
            d.id = 1 → matchesBody d [("status", Value.str "Idle")] = true) →
          applyDevicePatch [{ id := 1, uuid := "d1", belongs_to__application := "a1" }] 1
              [("status", Value.str "Idle")]
            = [{ id := 1, uuid := "d1", belongs_to__application := "a1" }]
          ∧ devicePatchAffected [{ id := 1, uuid := "d1", belongs_to__application := "a1" }] 1
              [("status", Value.str "Idle")] = [])
      ∧ devicePatchAffected
          (applyDevicePatch [{ id := 1, uuid := "d1", belongs_to__application := "a1" }] 1
            [("status", Value.str "Idle")]) 1 [("status", Value.str "Idle")] = []) := by
  refine ⟨⟨by decide, by rfl⟩, ?_⟩
  exact device_patch_idempotent { fields := [("status", Value.str "Idle")] }
    { id := 1, uuid := "d1", belongs_to__application := "a1" } []
    [("status", Value.str "Idle")]
    [{ id := 1, uuid := "d1", belongs_to__application := "a1" }] (by decide) (by rfl)

/-- C9: Cache sentinel round-trip.  On a miss, an undefined result of the
underlying function is stored as the configured undefinedAs sentinel and the
caller observes undefined; the next call hits the sentinel entry without
recomputation and observes undefined again, so the cached no-value marker is
distinct from the not-yet-cached state; and whenever the underlying value
differs from the sentinel the caller observes exactly that value, both on the
computing call and on every later retrieval. -/
theorem cache_sentinel_roundtrip {V : Type} [DecidableEq V]
    (fn : String → Option V) (undefinedAs : V) (key : String)
    (cache : List (String × V)) (hmiss : alookup cache key = none) :
    (fn key = none →
      (memoizedFn fn undefinedAs key cache).value = none
      ∧ (memoizedFn fn undefinedAs key cache).computed = true
      ∧ alookup (memoizedFn fn undefinedAs key cache).cache key = some undefinedAs
      ∧ (memoizedFn fn undefinedAs key (memoizedFn fn undefinedAs key cache).cache).value = none
      ∧ (memoizedFn fn undefinedAs key
          (memoizedFn fn undefinedAs key cache).cache).computed = false)
    ∧ (∀ v, fn key = some v → v ≠ undefinedAs →
        (memoizedFn fn undefinedAs key cache).value = some v
        ∧ (memoizedFn fn undefinedAs key
            (memoizedFn fn undefinedAs key cache).cache).value = some v
        ∧ (memoizedFn fn undefinedAs key
            (memoizedFn fn undefinedAs key cache).cache).computed = false) := by
  constructor
  · intro hfn
    have hl : alookup (cache ++ [(key, undefinedAs)]) key = some undefinedAs := by
      rw [alookup_append, hmiss]
      simp [alookup]
    refine ⟨?_, ?_, ?_, ?_, ?_⟩ <;> simp [memoizedFn, hmiss, hfn, hl]
  · intro v hfn hne
    have hl : alookup (cache ++ [(key, v)]) key = some v := by
      rw [alookup_append, hmiss]
      simp [alookup]
    refine ⟨?_, ?_, ?_⟩ <;> simp [memoizedFn, hmiss, hfn, hl, hne]

/-- Witness for C9 at a concrete input: an empty cache misses the key. -/
theorem cache_sentinel_roundtrip_witness :
    (alookup ([] : List (String × Nat)) "k" = none)
    ∧ (((fun _ : String => (none : Option Nat)) "k" = none →
        (memoizedFn (fun _ => none) 0 "k" []).value = none
        ∧ (memoizedFn (fun _ => none) 0 "k" []).computed = true
        ∧ alookup (memoizedFn (fun _ => none) 0 "k" []).cache "k" = some 0
        ∧ (memoizedFn (fun _ => none) 0 "k"
            (memoizedFn (fun _ => none) 0 "k" []).cache).value = none
        ∧ (memoizedFn (fun _ => none) 0 "k"
            (memoizedFn (fun _ => none) 0 "k" []).cache).computed = false)
      ∧ (∀ v, (fun _ : String => (none : Option Nat)) "k" = some v → v ≠ 0 →
          (memoizedFn (fun _ => none) 0 "k" []).value = some v
          ∧ (memoizedFn (fun _ => none) 0 "k"
              (memoizedFn (fun _ => none) 0 "k" []).cache).value = some v
          ∧ (memoizedFn (fun _ => none) 0 "k"
              (memoizedFn (fun _ => none) 0 "k" []).cache).computed = false)) := by
  exact ⟨rfl, cache_sentinel_roundtrip (fun _ => none) 0 "k" [] rfl⟩

/-- C10: Implicit field frame.  Every key of a successfully built device patch
body lies in the fixed allow-list validPatchFields or is device_name or
is_running__release; in particular parent_device, although part of the
accepted body shape, is never among the written keys; and applying the patch
leaves every column outside the body's keys unchanged. -/
theorem device_field_frame (entry : DeviceEntry) (device : DeviceRow)
    (ars : List (String × List ReleaseRow)) (b : List (String × Value))
    (hb : buildDeviceBody entry device ars = .ok b) :
    (∀ k ∈ b.map Prod.fst,
      k ∈ validPatchFields ∨ k = "device_name" ∨ k = "is_running__release")
    ∧ "parent_device" ∉ b.map Prod.fst
    ∧ (∀ (fields : List (String × Value)) (k : String), k ∉ b.map Prod.fst →
        alookup (applyFields fields b) k = alookup fields k) := by
  refine ⟨buildDeviceBody_keys hb, ?_, ?_⟩
  · intro hmem
    rcases buildDeviceBody_keys hb _ hmem with h1 | h2 | h3
    · exact absurd h1 (by decide)
    · exact absurd h2 (by decide)
    · exact absurd h3 (by decide)
  · intro fields k hk
    exact alookup_applyFields_not_mem b fields k hk

/-- Witness for C10 at a concrete input: a body carrying status and
parent_device; only status survives the pick, parent_device is dropped. -/
theorem device_field_frame_witness :
    (buildDeviceBody
        { fields := [("status", Value.str "Idle"), ("parent_device", Value.num 3)] }
        { id := 1, uuid := "d1", belongs_to__application := "a1" } []
      = .ok [("status", Value.str "Idle")])
    ∧ ((∀ k ∈ [("status", Value.str "Idle")].map Prod.fst,
        k ∈ validPatchFields ∨ k = "device_name" ∨ k = "is_running__release")
      ∧ "parent_device" ∉ [("status", Value.str "Idle")].map Prod.fst
      ∧ (∀ (fields : List (String × Value)) (k : String),
          k ∉ [("status", Value.str "Idle")].map Prod.fst →
          alookup (applyFields fields [("status", Value.str "Idle")]) k
            = alookup fields k)) := by
  exact ⟨by rfl, device_field_frame
    { fields := [("status", Value.str "Idle"), ("parent_device", Value.num 3)] }
    { id := 1, uuid := "d1", belongs_to__application := "a1" } []
    [("status", Value.str "Idle")] (by rfl)⟩

end BalenaApi
